import Mathlib

/-!
Verification of `src/xmlstream.cpp` — a streaming XML → JSONL / MySQL-dump /
SQLite converter.

The development shallowly embeds the program:

* `Json` models the `nlohmann::json` runtime value.  The default
  `nlohmann::json` object type is `std::map<std::string, json>`, i.e. an
  assoc list kept sorted by key (`insertSorted` models `operator[]=`,
  which overwrites an existing key and otherwise inserts at the sorted
  position).
* `XNode` models a libxml2 element subtree as handed out by
  `xmlTextReaderExpand`: a tag name, an ordered attribute list and an
  ordered list of children (element or text nodes).
* `node_to_json` / `children_to_json` embed the generic mapper,
  `nmap_host_to_obj` the host-record normalizer, `sql_escape` the MySQL
  escaper, and `run_main` the driver loop of `main` (token pulling,
  cancellation polling, the three output sinks, the final SQLite flush).

Serialization (`json::dump`) and actual I/O are out of scope (they are
external primitives per the specification); records are tracked as
structured values.
-/

/-- The `nlohmann::json` value model.  `obj` carries the members of a
`std::map`-backed object: an assoc list sorted strictly by key. -/
inductive Json where
  | null
  | str (s : String)
  | arr (xs : List Json)
  | obj (m : List (String × Json))
deriving Repr

/-- Lexicographic order on character lists (`std::string::operator<`
compares bytes; UTF-8 byte order coincides with codepoint order). -/
def charsLt : List Char → List Char → Bool
  | [], [] => false
  | [], _ :: _ => true
  | _ :: _, [] => false
  | a :: as, b :: bs => if a < b then true else if b < a then false else charsLt as bs

/-- `std::string::operator<`, the key order of `std::map<std::string, …>`. -/
def strLt (a b : String) : Bool := charsLt a.data b.data

/-- `std::map::operator[]=` on a string-keyed map: overwrite the key if
present (`std::map` equivalence `¬(k<k') ∧ ¬(k'<k)` is string equality),
otherwise insert at the position given by `operator<`. -/
def insertSorted (k : String) (v : Json) : List (String × Json) → List (String × Json)
  | [] => [(k, v)]
  | (k', v') :: rest =>
      if strLt k k' then (k, v) :: (k', v') :: rest
      else if k = k' then (k, v) :: rest
      else (k', v') :: insertSorted k v rest

/-- `std::map::find` / JSON object member lookup. -/
def lookupKey (k : String) : List (String × Json) → Option Json
  | [] => none
  | (k', v) :: rest => if k' = k then some v else lookupKey k rest

/-- Member access on a JSON value (`json::find`-style): `none` unless the
value is an object containing the key.  `j.contains(k)` is `(jGet j k).isSome`. -/
def jGet (j : Json) (k : String) : Option Json :=
  match j with
  | .obj m => lookupKey k m
  | _ => none

/-- `json::at(key)` at call sites where the key is known to be present
(`.at` would throw otherwise; every such call site in the program looks up
the single key of a `node_to_json` result). Missing keys default to `null`. -/
def jAtD (j : Json) (k : String) : Json :=
  (jGet j k).getD Json.null

/-- `json::operator[](key) = v`: converts `null` to a one-entry object,
inserts/overwrites on an object, and fails (`none`, modelling the thrown
`type_error.305`) on any other value. -/
def Json.set : Json → String → Json → Option Json
  | .null, k, v => some (.obj [(k, v)])
  | .obj m, k, v => some (.obj (insertSorted k v m))
  | _, _, _ => none

/-- Total wrapper for `operator[]=` used where the receiver is always
`null` or an object (every assignment inside `nmap_host_to_obj`). -/
def jset (j : Json) (k : String) (v : Json) : Json :=
  (Json.set j k v).getD j

/-- `json::empty()`: `true` for `null` and for empty arrays/objects
(primitive values have size 1 in nlohmann, hence are not empty). -/
def jEmpty : Json → Bool
  | .null => true
  | .obj m => m.isEmpty
  | .arr xs => xs.isEmpty
  | _ => false

/-- A libxml2 subtree node: element (tag name, attributes, children) or
text content. -/
inductive XNode where
  | elem (name : String) (attrs : List (String × String)) (children : List XNode)
  | text (s : String)
deriving Repr

/-- The tag name of an element node (`node->name` guarded by
`node->type == XML_ELEMENT_NODE`). -/
def elemName? : XNode → Option String
  | .elem n _ _ => some n
  | .text _ => none

/-- `xmlGetProp`: the value of the named attribute, if present. -/
def getProp (n : XNode) (k : String) : Option String :=
  match n with
  | .elem _ attrs _ => (attrs.find? (fun p => p.1 = k)).map (·.2)
  | .text _ => none

/-- `xmlNodeGetContent` of a node list: the concatenation of all text
content in the subtrees, in document order. -/
def XNode.contentList : List XNode → String
  | [] => ""
  | .text s :: rest => s ++ XNode.contentList rest
  | .elem _ _ ch :: rest => XNode.contentList ch ++ XNode.contentList rest

/-- `xmlNodeGetContent` of a single node. -/
def XNode.content : XNode → String
  | .text s => s
  | .elem _ _ ch => XNode.contentList ch

/-- The whitespace set of `find_first_not_of(" \t\r\n")`. -/
def isWs (c : Char) : Bool := c = ' ' || c = '\t' || c = '\r' || c = '\n'

/-- The trim step of `children_to_json`: strip leading and trailing
characters from `" \t\r\n"`.  The result is `""` exactly when
`find_first_not_of` returned `npos` (no non-whitespace character), in
which case the source attaches nothing. -/
def trimChars (s : String) : String :=
  ⟨(((s.data.dropWhile isWs).reverse.dropWhile isWs).reverse)⟩

/-- `add_attributes`: each attribute becomes an object entry
`"@" + name ↦ value` (later duplicates overwrite, as `obj[k] = v` does). -/
def addAttrs (attrs : List (String × String)) : List (String × Json) :=
  attrs.foldl (fun acc p => insertSorted ("@" ++ p.1) (.str p.2) acc) []

/-- The `std::map<std::string, std::vector<json>> groups` insertion:
append to the vector of an existing key, otherwise insert the key at its
sorted position with a one-element vector. -/
def groupInsert (k : String) (v : Json) : List (String × List Json) → List (String × List Json)
  | [] => [(k, [v])]
  | (k', vs) :: rest =>
      if strLt k k' then (k, [v]) :: (k', vs) :: rest
      else if k = k' then (k', vs ++ [v]) :: rest
      else (k', vs) :: groupInsert k v rest

/-- Build `groups` from the `(tag, node_to_json child)` pairs of the
element children, in document order. -/
def buildGroups (pairs : List (String × Json)) : List (String × List Json) :=
  pairs.foldl (fun g p => groupInsert p.1 p.2 g) []

/-- `groups` lookup. -/
def lookupGroup (k : String) : List (String × List Json) → Option (List Json)
  | [] => none
  | (k', vs) :: rest => if k' = k then some vs else lookupGroup k rest

/-- The merge step of `children_to_json` (lines 117–127): a tag that
appears once contributes `single.at(tag)` directly, a tag that appears
several times contributes the array of the `.at(tag)` projections, in
document order. -/
def mergeGroups (groups : List (String × List Json)) : List (String × Json) :=
  groups.foldl
    (fun obj kv =>
      match kv.2 with
      | [single] => insertSorted kv.1 (jAtD single kv.1) obj
      | vs => insertSorted kv.1 (Json.arr (vs.map (fun el => jAtD el kv.1))) obj)
    []

/-- The body of `children_to_json` given the `(tag, mapped)` pairs of the
element children and the node's `xmlNodeGetContent` string: group and
merge the element children, then attach the trimmed text — under
`"#text"` if the object is non-empty, as the value itself (a plain
string leaf) if it is empty; all-whitespace text attaches nothing. -/
def childrenResult (pairs : List (String × Json)) (content : String) : Json :=
  let obj := mergeGroups (buildGroups pairs)
  let t := trimChars content
  if t = "" then Json.obj obj
  else if obj.isEmpty then Json.str t
  else Json.obj (insertSorted "#text" (Json.str t) obj)

/-- The merge of `children_to_json`'s result into the attribute object
(`node_to_json` lines 153–157): object results are merged key by key,
a non-null non-object result (the string leaf) replaces an empty
attribute object and otherwise lands under `"#text"`. -/
def mergeKids (attrsObj : List (String × Json)) (kids : Json) : Json :=
  match kids with
  | .obj m => .obj (m.foldl (fun acc p => insertSorted p.1 p.2 acc) attrsObj)
  | .null => .obj attrsObj
  | other => if attrsObj.isEmpty then other else .obj (insertSorted "#text" other attrsObj)

mutual

/-- `node_to_json`: attributes as `"@..."` keys, children via
`children_to_json`, wrapped as `{ name : inner }`. -/
def node_to_json : XNode → Json
  | .text s => .str s
  | .elem name attrs ch =>
      let inner := mergeKids (addAttrs attrs) (childrenResult (childJsons ch) (XNode.contentList ch))
      Json.obj [(name, match inner with | .null => .obj [] | x => x)]

/-- The element children of a node paired with their `node_to_json`
values, in document order (the `cur->type == XML_ELEMENT_NODE` filter of
the `groups` loop). -/
def childJsons : List XNode → List (String × Json)
  | [] => []
  | .text _ :: rest => childJsons rest
  | .elem n a k :: rest => (n, node_to_json (.elem n a k)) :: childJsons rest

end

/-- `children_to_json` itself (only ever called on element nodes). -/
def children_to_json (n : XNode) : Json :=
  match n with
  | .text s => childrenResult [] s
  | .elem _ _ ch => childrenResult (childJsons ch) (XNode.contentList ch)

/-- The children of a node (`node->children`; a text node has none). -/
def XNode.kids : XNode → List XNode
  | .elem _ _ ch => ch
  | .text _ => []

/-- One `if (xmlChar* v = xmlGetProp(n, key)) obj[key] = value;` step. -/
def propSet (j : Json) (n : XNode) (k : String) : Json :=
  match getProp n k with
  | some v => jset j k (.str v)
  | none => j

/-- `pj["scripts"].push_back(sc)`: append to the array stored under the
key (the key is always present and holds an array at this call site). -/
def jAppendAt (j : Json) (k : String) (v : Json) : Json :=
  match jGet j k with
  | some (.arr xs) => jset j k (.arr (xs ++ [v]))
  | _ => j

/-- A `<script>` element's `{id, output}` pair (used both for per-port
scripts and for `hostscript` children). -/
def script_to_sc (s : XNode) : Json :=
  propSet (propSet Json.null s "id") s "output"

/-- The per-`<address>` value of the addresses block: a default-constructed
`nlohmann::json a;` (null) with the `addr`/`addrtype`/`vendor` attributes
assigned when present (the first assignment turns the null into an object;
an address with none of the three attributes stays `null`). -/
def addrEntry (n : XNode) : Json :=
  propSet (propSet (propSet Json.null n "addr") n "addrtype") n "vendor"

/-- The per-`<hostname>` value of the hostnames block (`name`/`type`). -/
def hnEntry (h : XNode) : Json :=
  propSet (propSet Json.null h "name") h "type"

/-- One `<port>` element of the `<ports>` block: `protocol`/`portid`
attributes, then its `state`, `service` and `script` children. -/
def portObj (p : XNode) : Json :=
  let pj := propSet (propSet Json.null p "protocol") p "portid"
  p.kids.foldl
    (fun pj c =>
      match elemName? c with
      | some "state" => propSet (propSet pj c "state") c "reason"
      | some "service" =>
          let svc := ["name", "product", "version", "extrainfo", "tunnel", "method", "conf"].foldl
            (fun svc k => propSet svc c k) Json.null
          let cpes := c.kids.filterMap
            (fun ce => if elemName? ce = some "cpe" then some (Json.str (XNode.content ce)) else none)
          let svc := if cpes.isEmpty then svc else jset svc "cpe" (.arr cpes)
          if jEmpty svc then pj else jset pj "service" svc
      | some "script" =>
          let pj := if (jGet pj "scripts").isSome then pj else jset pj "scripts" (.arr [])
          jAppendAt pj "scripts" (script_to_sc c)
      | _ => pj)
    pj

/-- `nmap_host_to_obj`: the fixed-schema host-record normalizer. -/
def nmap_host_to_obj (host : XNode) : Json :=
  let out := Json.obj []
  let out := match getProp host "starttime" with
    | some st => jset out "starttime" (.str st)
    | none => out
  -- status
  let out := host.kids.foldl
    (fun out n =>
      if elemName? n = some "status" then
        match getProp n "state" with
        | some s => jset out "status" (.str s)
        | none => out
      else out) out
  -- addresses
  let addrs := host.kids.foldl
    (fun arr n => if elemName? n = some "address" then arr ++ [addrEntry n] else arr)
    ([] : List Json)
  let out := if addrs.isEmpty then out else jset out "addresses" (.arr addrs)
  -- hostnames
  let out := host.kids.foldl
    (fun out n =>
      if elemName? n = some "hostnames" then
        let names := n.kids.foldl
          (fun names h => if elemName? h = some "hostname" then names ++ [hnEntry h] else names)
          ([] : List Json)
        if names.isEmpty then out else jset out "hostnames" (.arr names)
      else out) out
  -- ports
  let out := host.kids.foldl
    (fun out n =>
      if elemName? n = some "ports" then
        let arr := n.kids.foldl
          (fun arr p => if elemName? p = some "port" then arr ++ [portObj p] else arr)
          ([] : List Json)
        if arr.isEmpty then out else jset out "ports" (.arr arr)
      else out) out
  -- host-level scripts
  let out := host.kids.foldl
    (fun out n =>
      if elemName? n = some "hostscript" then
        let hs := n.kids.foldl
          (fun hs s => if elemName? s = some "script" then hs ++ [script_to_sc s] else hs)
          ([] : List Json)
        if hs.isEmpty then out else jset out "hostscripts" (.arr hs)
      else out) out
  -- uptime
  let out := host.kids.foldl
    (fun out n =>
      if elemName? n = some "uptime" then
        let up := propSet (propSet Json.null n "seconds") n "lastboot"
        if jEmpty up then out else jset out "uptime" up
      else out) out
  jset out "_tag" (.str "host")

/-- `sql_escape`: replace backslash, single quote, newline, carriage
return, horizontal tab and NUL by their two-character escape forms; every
other byte passes through unchanged. -/
def sql_escape (s : String) : String :=
  s.data.foldl
    (fun out c =>
      if c = '\\' then out ++ "\\\\"
      else if c = '\'' then out ++ "\\'"
      else if c = '\n' then out ++ "\\n"
      else if c = '\r' then out ++ "\\r"
      else if c = '\t' then out ++ "\\t"
      else if c = '\x00' then out ++ "\\0"
      else out.push c)
    ""

/-! ## The driver (`main`): extraction loop, sinks, cancellation -/

/-- `--mode`.  (`main` rejects any other string before the loop.) -/
inductive Mode where
  | generic
  | nmap
deriving Repr, DecidableEq

/-- `--format`.  (`jsonl` | `mysql-sql` | `sqlite`, the sqlite build.) -/
inductive Format where
  | jsonl
  | mysqlSql
  | sqlite
deriving Repr, DecidableEq

/-- The configuration the extraction loop depends on.  CLI parsing and
I/O targets are external collaborators. `batch` is `--batch`, clamped to
`max(1, atoi(optarg))` by option parsing (default 500). -/
structure Config where
  mode : Mode
  record_tag : String
  format : Format
  batch : Nat
deriving Repr

/-- One iteration's worth of the pull-parser token stream: either an
element-start event carrying its expandable subtree (a matching one is
expanded, dispatched, and skipped past in a single loop iteration), or
any other single token (text, end-element, non-matching start that the
loop steps over one token at a time). -/
inductive Tok where
  | elemStart (node : XNode)
  | other
deriving Repr

/-- An ordered write to the text output stream `*pout`. -/
inductive OutEvent where
  | preamble
  | insertStmt (tag : String) (j : Json)
  | line (j : Json)
  | postamble
deriving Repr

/-- The mutable sink state of `main`: the text output written so far, the
SQLite row buffer `sqlite_buf`, and the committed SQLite transactions. -/
structure LoopSt where
  out : List OutEvent
  buf : List (String × Json)
  txns : List (List (String × Json))
deriving Repr

/-- `sqlite_batch_insert`: commit the buffered rows as one transaction
(`BEGIN; INSERT …; COMMIT;`). -/
def sqlite_batch_insert (txns : List (List (String × Json))) (rows : List (String × Json)) :
    List (List (String × Json)) :=
  txns ++ [rows]

/-- The per-record mapping step (lines 525–532): nmap mode on a `host`
record uses the normalizer; otherwise `node_to_json` plus the
`{tag: {...}} → {..., "_tag": tag}` unwrap.  The unwrap assigns
`merged["_tag"]` — `merged` being `it.value()` — which throws
(`Except.error`) when that value is not an object or `null`, e.g. the
plain-string leaf a text-only record maps to. -/
def map_record (cfg : Config) (node : XNode) : Except Unit Json :=
  if cfg.mode = Mode.nmap ∧ elemName? node = some "host" then
    .ok (nmap_host_to_obj node)
  else
    let j := node_to_json node
    match j with
    | .obj ((k, v) :: _) =>
        match Json.set v "_tag" (.str k) with
        | some merged => .ok merged
        | none => .error ()
    | _ => .ok j

/-- `tag_val` (line 534): `j["_tag"].get<std::string>()` when present
(`get<std::string>` throws on a non-string), else the record tag. -/
def tag_val_of (cfg : Config) (j : Json) : Except Unit String :=
  match jGet j "_tag" with
  | some (.str s) => .ok s
  | some _ => .error ()
  | none => .ok cfg.record_tag

/-- Dispatch one matched record to the active sink (lines 536–550):
sqlite buffers and flushes at the batch size, mysql emits an INSERT,
jsonl emits one line. -/
def process_record (cfg : Config) (st : LoopSt) (node : XNode) : Except Unit LoopSt := do
  let j ← map_record cfg node
  let tv ← tag_val_of cfg j
  match cfg.format with
  | .sqlite =>
      let buf := st.buf ++ [(tv, j)]
      if cfg.batch ≤ buf.length then
        .ok { st with buf := [], txns := sqlite_batch_insert st.txns buf }
      else
        .ok { st with buf := buf }
  | .mysqlSql => .ok { st with out := st.out ++ [.insertStmt tv j] }
  | .jsonl => .ok { st with out := st.out ++ [.line j] }

/-- One loop-body step on the current token: a start-element whose tag
equals the record tag is expanded, dispatched and skipped; anything else
just advances the stream. -/
def process_tok (cfg : Config) (st : LoopSt) : Tok → Except Unit LoopSt
  | .elemStart node =>
      if elemName? node = some cfg.record_tag then process_record cfg st node else .ok st
  | .other => .ok st

/-- The loop bodies executed over a token list (no cancellation). -/
def run_toks (cfg : Config) (st : LoopSt) : List Tok → Except Unit LoopSt
  | [] => .ok st
  | t :: rest => do
      let st' ← process_tok cfg st t
      run_toks cfg st' rest

/-- The streaming loop (lines 514–559).  `while (ret == 1 && !g_stop_requested)`:
when the stream is exhausted the flag is not read (short-circuit); otherwise
each condition evaluation reads the flag exactly once — `polls` counts those
reads, `i` counts consumed tokens (= completed iterations), and the returned
`Bool` tells whether the loop exited because the flag was observed set.
`stop i` is the flag value at the `i`-th poll (set asynchronously by SIGINT,
observed only here and at the final-flush check). -/
def stream_loop (cfg : Config) (stop : Nat → Bool) :
    List Tok → Nat → Nat → LoopSt → Except Unit (LoopSt × Nat × Nat × Bool)
  | [], i, polls, st => .ok (st, i, polls, false)
  | t :: rest, i, polls, st =>
      if stop i then .ok (st, i, polls + 1, true)
      else do
        let st' ← process_tok cfg st t
        stream_loop cfg stop rest (i + 1) (polls + 1) st'

/-- `--record-tag` after the nmap default (lines 436–438): nmap mode with
an empty record tag silently becomes `host`. -/
def effective_record_tag (cfg : Config) : String :=
  if cfg.mode = Mode.nmap ∧ cfg.record_tag = "" then "host" else cfg.record_tag

/-- The observable outcome of one `main` run. `leftover` is the content
of `sqlite_buf` after the final-flush decision (rows that were dropped),
`finishFlushed` records whether the final flush transaction ran,
`stopped` whether the loop exited on the cancellation flag, `consumed`
and `polls` the loop counters. -/
structure MainResult where
  exit : Nat
  out : List OutEvent
  txns : List (List (String × Json))
  leftover : List (String × Json)
  finishFlushed : Bool
  stopped : Bool
  consumed : Nat
  polls : Nat
deriving Repr

/-- The driver (lines 503–571): MySQL preamble, the `--record-tag`
configuration check (error 9), the streaming loop, the final SQLite
flush — guarded by a fresh read of the cancellation flag (modelled as
`stop consumed`, the first unconsumed poll index) and by the buffer
being non-empty — and the MySQL postamble. -/
def run_main (cfg : Config) (toks : List Tok) (stop : Nat → Bool) : Except Unit MainResult := do
  let rtag := effective_record_tag cfg
  let out0 : List OutEvent := if cfg.format = Format.mysqlSql then [.preamble] else []
  if rtag = "" then
    .ok { exit := 9, out := out0, txns := [], leftover := [], finishFlushed := false,
          stopped := false, consumed := 0, polls := 0 }
  else do
    let (st, consumed, polls, stopped) ←
      stream_loop { cfg with record_tag := rtag } stop toks 0 0 ⟨out0, [], []⟩
    let (st, ff) :=
      if stop consumed = false ∧ cfg.format = Format.sqlite ∧ st.buf.isEmpty = false then
        ({ st with txns := sqlite_batch_insert st.txns st.buf, buf := [] }, true)
      else (st, false)
    let out := if cfg.format = Format.mysqlSql then st.out ++ [.postamble] else st.out
    .ok { exit := 0, out := out, txns := st.txns, leftover := st.buf, finishFlushed := ff,
          stopped := stopped, consumed := consumed, polls := polls }

/-- The `(tag_val, json)` pairs the loop dispatches for a token list, in
document order (the specification's sequence of records). -/
def record_jsons (cfg : Config) : List Tok → Except Unit (List (String × Json))
  | [] => .ok []
  | .other :: rest => record_jsons cfg rest
  | .elemStart node :: rest =>
      if elemName? node = some cfg.record_tag then do
        let j ← map_record cfg node
        let tv ← tag_val_of cfg j
        let rs ← record_jsons cfg rest
        .ok ((tv, j) :: rs)
      else record_jsons cfg rest

/-! ## Specification-side observables and concrete inputs -/

/-- Whether a value is an object. -/
def Json.isObj : Json → Bool
  | .obj _ => true
  | _ => false

/-- The keys of an object value, in iteration order. -/
def objKeys : Json → List String
  | .obj m => m.map (·.1)
  | _ => []

/-- Stated from the specification: the distinct child element tag names
in first-seen document order. -/
def firstSeenTags (ch : List XNode) : List String :=
  (ch.filterMap elemName?).foldl (fun acc t => if t ∈ acc then acc else acc ++ [t]) []

/-- Stated from the specification: an element's *direct* text content —
the concatenation of its immediate text children only. -/
def directText (ch : List XNode) : String :=
  ch.foldl (fun acc c => match c with | .text s => acc ++ s | _ => acc) ""

/-- Stated from the specification (C7): the per-byte escaping rule —
backslash, single quote, newline, carriage return, horizontal tab and
NUL map to their two-character escape forms, everything else to itself. -/
def escapeCharSpec (c : Char) : String :=
  if c = '\\' then "\\\\"
  else if c = '\'' then "\\'"
  else if c = '\n' then "\\n"
  else if c = '\r' then "\\r"
  else if c = '\t' then "\\t"
  else if c = '\x00' then "\\0"
  else String.singleton c

/-- The element children carrying a given tag name, in document order. -/
def childrenNamed (t : String) (ch : List XNode) : List XNode :=
  ch.filter (fun c => elemName? c = some t)

/-- The mapped values of the children named `t`, in document order (each
`node_to_json` result projected at its tag, as the merge step does). -/
def childVals (t : String) (ch : List XNode) : List Json :=
  (childrenNamed t ch).map (fun c => jAtD (node_to_json c) t)

/-- C1 counterexample input: children `<b/>` then `<a/>`. -/
def cexC1 : XNode := .elem "x" [] [.elem "b" [] [], .elem "a" [] []]

/-- C2 counterexample input: no direct text, but a grandchild text `"x"`. -/
def cexC2 : XNode := .elem "a" [] [.elem "b" [] [.text "x"]]

/-- C9 counterexample input: one `<address>` child with no attributes. -/
def cexC9 : XNode := .elem "host" [] [.elem "address" [] []]

/-- C9 witness input: two `<address>` children, no `<hostnames>`. -/
def witC9 : XNode :=
  .elem "host" []
    [.elem "address" [("addr", "10.0.0.1"), ("addrtype", "ipv4")] [],
     .elem "address" [("addr", "aa:bb:cc:dd:ee:ff"), ("addrtype", "mac")] []]

/-- C10 failing input: a pure text leaf record `<item>hello</item>`. -/
def c10node : XNode := .elem "item" [] [.text "hello"]

/-- A small record element with one attribute, used for driver runs. -/
def recNode (s : String) : XNode := .elem "item" [("i", s)] []

/-- The row the loop dispatches for `recNode s` in generic mode. -/
def recRow (s : String) : String × Json :=
  ("item", .obj [("@i", .str s), ("_tag", .str "item")])

/-- Seven record tokens for the batched-writer scenario. -/
def toks7 : List Tok :=
  [.elemStart (recNode "1"), .elemStart (recNode "2"), .elemStart (recNode "3"),
   .elemStart (recNode "4"), .elemStart (recNode "5"), .elemStart (recNode "6"),
   .elemStart (recNode "7")]

/-- A cancellation flag that is never set. -/
def stopNever : Nat → Bool := fun _ => false

/-- A write-once cancellation flag first observed set at poll `p`. -/
def stopFrom (p : Nat) : Nat → Bool := fun i => decide (p ≤ i)

/-- Every object in the value (recursively) has its keys in strictly
increasing `std::string::operator<` order — the iteration order of the
`std::map` backing nlohmann objects (in particular keys are unique, and
the order is the sorted one, not insertion order). -/
inductive SortedJson : Json → Prop where
  | null : SortedJson .null
  | str (s : String) : SortedJson (.str s)
  | arr (xs : List Json) : (∀ j ∈ xs, SortedJson j) → SortedJson (.arr xs)
  | obj (m : List (String × Json)) :
      m.Pairwise (fun a b => strLt a.1 b.1 = true) →
      (∀ p ∈ m, SortedJson p.2) → SortedJson (.obj m)

/-! ## Order lemmas for the `std::map` key order -/

theorem str_ext {s t : String} (h : s.data = t.data) : s = t := by
  cases s; cases t; exact congrArg String.mk h

theorem charsLt_trans : ∀ {a b c : List Char},
    charsLt a b = true → charsLt b c = true → charsLt a c = true := by
  intro a
  induction a with
  | nil =>
    intro b c hab hbc
    cases b with
    | nil => simp [charsLt] at hab
    | cons y ys =>
      cases c with
      | nil => simp [charsLt] at hbc
      | cons z zs => simp [charsLt]
  | cons x xs ih =>
    intro b c hab hbc
    cases b with
    | nil => simp [charsLt] at hab
    | cons y ys =>
      cases c with
      | nil => simp [charsLt] at hbc
      | cons z zs =>
        simp only [charsLt] at hab hbc ⊢
        rcases lt_trichotomy x y with hxy | hxy | hxy
        · rcases lt_trichotomy y z with hyz | hyz | hyz
          · simp [lt_trans hxy hyz]
          · subst hyz; simp [hxy]
          · simp [hyz, lt_asymm hyz] at hbc
        · subst hxy
          rcases lt_trichotomy x z with hxz | hxz | hxz
          · simp [hxz]
          · subst hxz
            simp [lt_irrefl] at hab hbc ⊢
            exact ih hab hbc
          · simp [hxz, lt_asymm hxz] at hbc
        · simp [hxy, lt_asymm hxy] at hab

theorem charsLt_connex : ∀ {a b : List Char},
    charsLt a b = false → charsLt b a = false → a = b := by
  intro a
  induction a with
  | nil =>
    intro b hab _
    cases b with
    | nil => rfl
    | cons y ys => simp [charsLt] at hab
  | cons x xs ih =>
    intro b hab hba
    cases b with
    | nil => simp [charsLt] at hba
    | cons y ys =>
      simp only [charsLt] at hab hba
      rcases lt_trichotomy x y with hxy | hxy | hxy
      · simp [hxy] at hab
      · subst hxy
        simp [lt_irrefl] at hab hba
        exact congrArg (x :: ·) (ih hab hba)
      · simp [hxy] at hba

theorem strLt_trans {a b c : String} (hab : strLt a b = true) (hbc : strLt b c = true) :
    strLt a c = true :=
  charsLt_trans hab hbc

theorem strLt_connex {a b : String} (hab : strLt a b = false) (hba : strLt b a = false) :
    a = b :=
  str_ext (charsLt_connex hab hba)

theorem strLt_of_not {a b : String} (hab : strLt a b = false) (hne : a ≠ b) :
    strLt b a = true := by
  cases hba : strLt b a with
  | true => rfl
  | false => exact absurd (strLt_connex hab hba) hne

/-! ## Lookup and insertion lemmas for the object model -/

theorem insertSorted_ne_nil (k : String) (v : Json) (m : List (String × Json)) :
    insertSorted k v m ≠ [] := by
  cases m with
  | nil => simp [insertSorted]
  | cons p rest =>
    simp only [insertSorted]
    split
    · simp
    · split <;> simp

theorem lookupKey_insertSorted_self (k : String) (v : Json) :
    ∀ m, lookupKey k (insertSorted k v m) = some v := by
  intro m
  induction m with
  | nil => simp [insertSorted, lookupKey]
  | cons p rest ih =>
    obtain ⟨k', v'⟩ := p
    simp only [insertSorted]
    by_cases h1 : strLt k k' = true
    · simp [h1, lookupKey]
    · simp only [h1]
      by_cases h2 : k = k'
      · simp [h2, lookupKey]
      · have hne : k' ≠ k := fun h => h2 h.symm
        simp [h2, lookupKey, hne, ih]

theorem lookupKey_insertSorted_ne {k k0 : String} (h : k ≠ k0) (v : Json) :
    ∀ m, lookupKey k0 (insertSorted k v m) = lookupKey k0 m := by
  intro m
  induction m with
  | nil => simp [insertSorted, lookupKey, h]
  | cons p rest ih =>
    obtain ⟨k', v'⟩ := p
    simp only [insertSorted]
    by_cases h1 : strLt k k' = true
    · simp [h1, lookupKey, h]
    · simp only [h1]
      by_cases h2 : k = k'
      · subst h2; simp [lookupKey, h]
      · simp [h2, lookupKey, ih]

theorem mem_insertSorted {p : String × Json} {k : String} {v : Json} :
    ∀ {m}, p ∈ insertSorted k v m → p = (k, v) ∨ p ∈ m := by
  intro m
  induction m with
  | nil => simp [insertSorted]
  | cons q rest ih =>
    obtain ⟨k', v'⟩ := q
    simp only [insertSorted]
    by_cases h1 : strLt k k' = true
    · simp only [if_pos h1, List.mem_cons]
      tauto
    · simp only [if_neg h1]
      by_cases h2 : k = k'
      · simp only [if_pos h2, List.mem_cons]
        tauto
      · simp only [if_neg h2, List.mem_cons]
        intro hmem
        rcases hmem with hmem | hmem
        · exact Or.inr (Or.inl hmem)
        · rcases ih hmem with hh | hh
          · exact Or.inl hh
          · exact Or.inr (Or.inr hh)

theorem pairwise_insertSorted {k : String} {v : Json} :
    ∀ {m}, m.Pairwise (fun a b => strLt a.1 b.1 = true) →
      (insertSorted k v m).Pairwise (fun a b => strLt a.1 b.1 = true) := by
  intro m
  induction m with
  | nil => simp [insertSorted]
  | cons q rest ih =>
    obtain ⟨k', v'⟩ := q
    intro hpw
    rw [List.pairwise_cons] at hpw
    obtain ⟨hhead, hrest⟩ := hpw
    simp only [insertSorted]
    by_cases h1 : strLt k k' = true
    · simp only [if_pos h1]
      refine List.Pairwise.cons ?_ (List.Pairwise.cons hhead hrest)
      intro b hb
      rcases List.mem_cons.mp hb with h | h
      · simp [h, h1]
      · exact strLt_trans h1 (hhead b h)
    · simp only [if_neg h1]
      by_cases h2 : k = k'
      · subst h2
        simp only [if_pos rfl]
        exact List.Pairwise.cons hhead hrest
      · simp only [if_neg h2]
        refine List.Pairwise.cons ?_ (ih hrest)
        intro b hb
        rcases mem_insertSorted hb with h | h
        · have hk : strLt k' k = true := strLt_of_not (by simpa using h1) h2
          rw [h]
          simpa using hk
        · exact hhead b h

/-! ## C7: `sql_escape` -/

theorem string_push_eq (s : String) (c : Char) : s.push c = s ++ String.singleton c := by
  cases s; rfl

theorem string_join_cons (a : String) (l : List String) :
    String.join (a :: l) = a ++ String.join l := by
  apply str_ext
  simp [String.data_append]

theorem sql_escape_aux (l : List Char) (out : String) :
    l.foldl
      (fun out c =>
        if c = '\\' then out ++ "\\\\"
        else if c = '\'' then out ++ "\\'"
        else if c = '\n' then out ++ "\\n"
        else if c = '\r' then out ++ "\\r"
        else if c = '\t' then out ++ "\\t"
        else if c = '\x00' then out ++ "\\0"
        else out.push c) out
    = out ++ String.join (l.map escapeCharSpec) := by
  induction l generalizing out with
  | nil =>
    apply str_ext
    simp [String.join]
  | cons c cs ih =>
    simp only [List.foldl_cons, List.map_cons, string_join_cons]
    rw [ih]
    have hstep : (if c = '\\' then out ++ "\\\\"
        else if c = '\'' then out ++ "\\'"
        else if c = '\n' then out ++ "\\n"
        else if c = '\r' then out ++ "\\r"
        else if c = '\t' then out ++ "\\t"
        else if c = '\x00' then out ++ "\\0"
        else out.push c) = out ++ escapeCharSpec c := by
      simp only [escapeCharSpec]
      split_ifs <;> simp [string_push_eq]
    rw [hstep]
    apply str_ext
    simp [String.data_append]

/-- C7: `sql_escape` replaces exactly backslash, single quote, newline,
carriage return, horizontal tab and NUL by their two-character escape
forms and passes every other byte through unchanged (`escapeCharSpec`
states the per-byte rule in the specification's words); in particular on
the string `a'b\c\n` (the 6-byte denotation of the spec's source literal
`a'b\\c\n`) it yields the literal sequence `a\'b\\c\n`, byte for byte. -/
theorem sql_escape_correct :
    (∀ s : String, sql_escape s = String.join (s.data.map escapeCharSpec)) ∧
    sql_escape "a'b\\c\n" = "a\\'b\\\\c\\n" := by
  constructor
  · intro s
    have h := sql_escape_aux s.data ""
    simpa [sql_escape] using h
  · rfl

/-! ## Group lemmas (`std::map<string, vector<json>> groups`) -/

theorem charsLt_irrefl : ∀ a : List Char, charsLt a a = false := by
  intro a
  induction a with
  | nil => rfl
  | cons x xs ih => simp [charsLt, lt_irrefl, ih]

theorem strLt_irrefl (a : String) : strLt a a = false := charsLt_irrefl a.data

theorem strLt_ne {a b : String} (h : strLt a b = true) : a ≠ b := by
  intro he
  subst he
  rw [strLt_irrefl] at h
  exact Bool.false_ne_true h

theorem mem_groupInsert_key {b : String × List Json} {k : String} {v : Json} :
    ∀ {g}, b ∈ groupInsert k v g → b.1 = k ∨ b.1 ∈ g.map (·.1) := by
  intro g
  induction g with
  | nil => intro h; simp [groupInsert] at h; simp [h]
  | cons q rest ih =>
    obtain ⟨k', vs⟩ := q
    intro hmem
    simp only [groupInsert] at hmem
    by_cases h1 : strLt k k' = true
    · rw [if_pos h1] at hmem
      rcases List.mem_cons.mp hmem with h | h
      · left; simp [h]
      · rcases List.mem_cons.mp h with h | h
        · right; simp [h]
        · right; simp only [List.map_cons, List.mem_cons]
          exact Or.inr (List.mem_map_of_mem _ h)
    · rw [if_neg h1] at hmem
      by_cases h2 : k = k'
      · rw [if_pos h2] at hmem
        rcases List.mem_cons.mp hmem with h | h
        · left; simp [h, h2]
        · right; simp only [List.map_cons, List.mem_cons]
          exact Or.inr (List.mem_map_of_mem _ h)
      · rw [if_neg h2] at hmem
        rcases List.mem_cons.mp hmem with h | h
        · right; simp [h]
        · rcases ih h with hh | hh
          · left; exact hh
          · right; simp only [List.map_cons, List.mem_cons]
            exact Or.inr hh

theorem pairwise_groupInsert {k : String} {v : Json} :
    ∀ {g}, g.Pairwise (fun a b => strLt a.1 b.1 = true) →
      (groupInsert k v g).Pairwise (fun a b => strLt a.1 b.1 = true) := by
  intro g
  induction g with
  | nil => simp [groupInsert]
  | cons q rest ih =>
    obtain ⟨k', vs⟩ := q
    intro hpw
    rw [List.pairwise_cons] at hpw
    obtain ⟨hhead, hrest⟩ := hpw
    simp only [groupInsert]
    by_cases h1 : strLt k k' = true
    · simp only [if_pos h1]
      refine List.Pairwise.cons ?_ (List.Pairwise.cons hhead hrest)
      intro b hb
      rcases List.mem_cons.mp hb with h | h
      · simp [h, h1]
      · exact strLt_trans h1 (hhead b h)
    · simp only [if_neg h1]
      by_cases h2 : k = k'
      · simp only [if_pos h2]
        exact List.Pairwise.cons hhead hrest
      · simp only [if_neg h2]
        refine List.Pairwise.cons ?_ (ih hrest)
        intro b hb
        rcases mem_groupInsert_key hb with h | h
        · have hk : strLt k' k = true := strLt_of_not (by simpa using h1) h2
          rw [h]; exact hk
        · rcases List.mem_map.mp h with ⟨c, hc, hc1⟩
          rw [← hc1]
          exact hhead c hc

theorem lookupGroup_none_of_lt {k : String} :
    ∀ {g}, (∀ b ∈ g, strLt k b.1 = true) → lookupGroup k g = none := by
  intro g
  induction g with
  | nil => intro _; rfl
  | cons q rest ih =>
    obtain ⟨k', vs⟩ := q
    intro h
    have hk : strLt k k' = true := h (k', vs) (by simp)
    have hne : k' ≠ k := fun he => strLt_ne hk he.symm
    simp only [lookupGroup, if_neg hne]
    exact ih fun b hb => h b (List.mem_cons_of_mem _ hb)

theorem lookupGroup_groupInsert_self (k : String) (v : Json) :
    ∀ {g}, g.Pairwise (fun a b => strLt a.1 b.1 = true) →
      lookupGroup k (groupInsert k v g) = some ((lookupGroup k g).getD [] ++ [v]) := by
  intro g
  induction g with
  | nil => intro _; simp [groupInsert, lookupGroup]
  | cons q rest ih =>
    obtain ⟨k', vs⟩ := q
    intro hpw
    rw [List.pairwise_cons] at hpw
    obtain ⟨hhead, hrest⟩ := hpw
    simp only [groupInsert]
    by_cases h1 : strLt k k' = true
    · have hne : k' ≠ k := fun he => strLt_ne h1 he.symm
      have hnone : lookupGroup k rest = none := by
        apply lookupGroup_none_of_lt
        intro b hb
        exact strLt_trans h1 (hhead b hb)
      simp [if_pos h1, lookupGroup, hne, hnone]
    · simp only [if_neg h1]
      by_cases h2 : k = k'
      · subst h2
        simp [lookupGroup]
      · have hne : k' ≠ k := fun he => h2 he.symm
        simp only [if_neg h2, lookupGroup, if_neg hne]
        exact ih hrest

theorem lookupGroup_groupInsert_ne {k k0 : String} (h : k ≠ k0) (v : Json) :
    ∀ g, lookupGroup k0 (groupInsert k v g) = lookupGroup k0 g := by
  intro g
  induction g with
  | nil => simp [groupInsert, lookupGroup, h]
  | cons q rest ih =>
    obtain ⟨k', vs⟩ := q
    simp only [groupInsert]
    by_cases h1 : strLt k k' = true
    · simp [if_pos h1, lookupGroup, h]
    · simp only [if_neg h1]
      by_cases h2 : k = k'
      · subst h2
        simp [lookupGroup, h]
      · simp [if_neg h2, lookupKey, lookupGroup, ih]

theorem lookupGroup_foldl (t : String) :
    ∀ (pairs : List (String × Json)) (g : List (String × List Json)),
      g.Pairwise (fun a b => strLt a.1 b.1 = true) →
      lookupGroup t (pairs.foldl (fun g p => groupInsert p.1 p.2 g) g)
        = (match lookupGroup t g with
           | some vs => some (vs ++ (pairs.filter (fun p => p.1 = t)).map (·.2))
           | none =>
             if (pairs.filter (fun p => p.1 = t)).isEmpty then none
             else some ((pairs.filter (fun p => p.1 = t)).map (·.2))) := by
  intro pairs
  induction pairs with
  | nil =>
    intro g _
    cases h : lookupGroup t g <;> simp [h]
  | cons p rest ih =>
    intro g hpw
    obtain ⟨p1, p2⟩ := p
    have hpw' : (groupInsert p1 p2 g).Pairwise (fun a b => strLt a.1 b.1 = true) :=
      pairwise_groupInsert hpw
    simp only [List.foldl_cons]
    rw [ih _ hpw']
    by_cases hp : p1 = t
    · subst hp
      rw [lookupGroup_groupInsert_self p1 p2 hpw]
      cases hg : lookupGroup p1 g with
      | some vs => simp [hg, List.filter_cons]
      | none => simp [hg, List.filter_cons]
    · rw [lookupGroup_groupInsert_ne hp p2 g]
      have hfil : (((p1, p2) :: rest).filter (fun q => q.1 = t))
          = rest.filter (fun q => q.1 = t) := by
        simp [List.filter_cons, hp]
      rw [hfil]

theorem buildGroups_pairwise (pairs : List (String × Json)) :
    (buildGroups pairs).Pairwise (fun a b => strLt a.1 b.1 = true) := by
  have haux : ∀ (ps : List (String × Json)) (g : List (String × List Json)),
      g.Pairwise (fun a b => strLt a.1 b.1 = true) →
      (ps.foldl (fun g p => groupInsert p.1 p.2 g) g).Pairwise (fun a b => strLt a.1 b.1 = true) := by
    intro ps
    induction ps with
    | nil => intro g hg; simpa using hg
    | cons p rest ih =>
      intro g hg
      simp only [List.foldl_cons]
      exact ih _ (pairwise_groupInsert hg)
  exact haux pairs [] (by simp)

theorem lookupGroup_buildGroups (t : String) (pairs : List (String × Json)) :
    lookupGroup t (buildGroups pairs)
      = (if (pairs.filter (fun p => p.1 = t)).isEmpty then none
         else some ((pairs.filter (fun p => p.1 = t)).map (·.2))) := by
  have h := lookupGroup_foldl t pairs [] (by simp)
  simpa [buildGroups, lookupGroup] using h

theorem lookupKey_mergeGroups (t : String) :
    ∀ (gs : List (String × List Json)) (acc : List (String × Json)),
      gs.Pairwise (fun a b => strLt a.1 b.1 = true) →
      lookupKey t
        (gs.foldl
          (fun obj kv =>
            match kv.2 with
            | [single] => insertSorted kv.1 (jAtD single kv.1) obj
            | vs => insertSorted kv.1 (Json.arr (vs.map (fun el => jAtD el kv.1))) obj)
          acc)
        = (match lookupGroup t gs with
           | some [single] => some (jAtD single t)
           | some vs => some (Json.arr (vs.map (fun el => jAtD el t)))
           | none => lookupKey t acc) := by
  intro gs
  induction gs with
  | nil =>
    intro acc _
    simp [lookupGroup]
  | cons kv gs' ih =>
    intro acc hpw
    rw [List.pairwise_cons] at hpw
    obtain ⟨hhead, hrest⟩ := hpw
    simp only [List.foldl_cons]
    rw [ih _ hrest]
    by_cases h : kv.1 = t
    · have hnone : lookupGroup t gs' = none := by
        apply lookupGroup_none_of_lt
        intro b hb
        rw [← h]
        exact hhead b hb
      rw [hnone]
      have hlook : lookupGroup t (kv :: gs') = some kv.2 := by
        have : kv.1 = t := h
        cases kv with
        | mk k1 v1 => simp only [lookupGroup, if_pos this]
      rw [hlook]
      cases hv : kv.2 with
      | nil =>
        simp [hv, h, lookupKey_insertSorted_self]
      | cons x xs =>
        cases xs with
        | nil => simp [hv, h, lookupKey_insertSorted_self]
        | cons y ys => simp [hv, h, lookupKey_insertSorted_self]
    · have hlook : lookupGroup t (kv :: gs') = lookupGroup t gs' := by
        cases kv with
        | mk k1 v1 =>
          have hne : k1 ≠ t := h
          simp only [lookupGroup, if_neg hne]
      rw [hlook]
      cases hg : lookupGroup t gs' with
      | some vs =>
        cases vs with
        | nil => rfl
        | cons x xs => cases xs <;> rfl
      | none =>
        cases hv : kv.2 with
        | nil => simp [lookupKey_insertSorted_ne h]
        | cons x xs => cases xs <;> simp [lookupKey_insertSorted_ne h]

/-! ## `childJsons` characterization -/

theorem childJsons_filter (t : String) :
    ∀ ch : List XNode,
      ((childJsons ch).filter (fun p => p.1 = t)).map (·.2)
        = (childrenNamed t ch).map node_to_json := by
  intro ch
  induction ch with
  | nil => simp [childJsons, childrenNamed]
  | cons c rest ih =>
    cases c with
    | text s => simpa [childJsons, childrenNamed, elemName?] using ih
    | elem n a k =>
      by_cases h : n = t
      · subst h
        simp [childJsons, childrenNamed, elemName?, List.filter_cons, ih]
      · simp [childJsons, childrenNamed, elemName?, List.filter_cons, h, ih]

/-! ## C8: array-vs-single merge -/

theorem node_to_json_elem (name : String) (attrs : List (String × String)) (ch : List XNode) :
    node_to_json (.elem name attrs ch)
      = Json.obj [(name,
          match mergeKids (addAttrs attrs) (childrenResult (childJsons ch) (XNode.contentList ch)) with
          | .null => .obj []
          | x => x)] := by
  rw [node_to_json]

theorem jGet_childrenResult_of_some {t : String} (hne : t ≠ "#text")
    {pairs : List (String × Json)} {V : Json}
    (h : lookupKey t (mergeGroups (buildGroups pairs)) = some V) (content : String) :
    jGet (childrenResult pairs content) t = some V := by
  have hobj : mergeGroups (buildGroups pairs) ≠ [] := by
    intro he
    rw [he] at h
    simp [lookupKey] at h
  simp only [childrenResult]
  by_cases h1 : trimChars content = ""
  · simp only [if_pos h1, jGet]
    exact h
  · simp only [if_neg h1]
    have h2 : ¬ ((mergeGroups (buildGroups pairs)).isEmpty = true) := by
      simpa [List.isEmpty_iff] using hobj
    rw [if_neg h2]
    simp only [jGet]
    rw [lookupKey_insertSorted_ne (fun he => hne he.symm)]
    exact h

theorem lookupKey_mergeGroups_eq (t : String) (gs : List (String × List Json))
    (hpw : gs.Pairwise (fun a b => strLt a.1 b.1 = true)) :
    lookupKey t (mergeGroups gs)
      = (match lookupGroup t gs with
         | some [single] => some (jAtD single t)
         | some vs => some (Json.arr (vs.map (fun el => jAtD el t)))
         | none => none) := by
  have h := lookupKey_mergeGroups t gs [] hpw
  simpa [mergeGroups, lookupKey] using h

/-- C8: in the object produced for an element's children, a child tag
name occurring exactly once is mapped directly to its single converted
value, and one occurring two or more times is mapped to the array of all
its converted values, in document order, one array element per
occurrence (`childVals` lists the converted values of the children named
`t`, in document order). -/
theorem single_vs_array (name : String) (attrs : List (String × String))
    (ch : List XNode) (t : String) (hne : t ≠ "#text") :
    (childVals t ch).length = (childrenNamed t ch).length ∧
    (∀ v, childVals t ch = [v] →
      jGet (children_to_json (.elem name attrs ch)) t = some v) ∧
    (2 ≤ (childVals t ch).length →
      jGet (children_to_json (.elem name attrs ch)) t = some (Json.arr (childVals t ch))) := by
  have hcj : children_to_json (.elem name attrs ch)
      = childrenResult (childJsons ch) (XNode.contentList ch) := by
    simp [children_to_json]
  have hsel := childJsons_filter t ch
  have hgrp := lookupGroup_buildGroups t (childJsons ch)
  have hmg := lookupKey_mergeGroups_eq t (buildGroups (childJsons ch))
    (buildGroups_pairwise (childJsons ch))
  refine ⟨by simp [childVals], ?_, ?_⟩
  · intro v hv
    have hlen1 : (childrenNamed t ch).length = 1 := by
      have : (childVals t ch).length = 1 := by rw [hv]; rfl
      simpa [childVals] using this
    obtain ⟨c, hc⟩ := List.length_eq_one.mp hlen1
    have hvc : v = jAtD (node_to_json c) t := by
      have : childVals t ch = [jAtD (node_to_json c) t] := by
        simp [childVals, hc]
      rw [this] at hv
      exact (List.cons.injEq _ _ _ _ ▸ hv).1.symm
    have hselc : ((childJsons ch).filter (fun p => p.1 = t)).map (·.2) = [node_to_json c] := by
      rw [hsel, hc]
      rfl
    have hfilne : ((childJsons ch).filter (fun p => p.1 = t)).isEmpty = false := by
      cases hfe : (childJsons ch).filter (fun p => p.1 = t) with
      | nil => rw [hfe] at hselc; simp at hselc
      | cons a l => simp [hfe]
    rw [hfilne] at hgrp
    simp only [Bool.false_eq_true, if_false] at hgrp
    rw [hselc] at hgrp
    rw [hgrp] at hmg
    simp only [] at hmg
    rw [hcj]
    rw [hvc]
    exact jGet_childrenResult_of_some hne hmg _
  · intro hlen
    have hlen' : 2 ≤ (childrenNamed t ch).length := by
      simpa [childVals] using hlen
    obtain ⟨c1, l1, hc1⟩ : ∃ c1 l1, childrenNamed t ch = c1 :: l1 := by
      cases hcc : childrenNamed t ch with
      | nil => rw [hcc] at hlen'; simp at hlen'
      | cons a l => exact ⟨a, l, rfl⟩
    obtain ⟨c2, l2, hc2⟩ : ∃ c2 l2, l1 = c2 :: l2 := by
      cases hcc : l1 with
      | nil => rw [hc1, hcc] at hlen'; simp at hlen'
      | cons a l => exact ⟨a, l, rfl⟩
    have hselc : ((childJsons ch).filter (fun p => p.1 = t)).map (·.2)
        = node_to_json c1 :: node_to_json c2 :: l2.map node_to_json := by
      rw [hsel, hc1, hc2]
      rfl
    have hfilne : ((childJsons ch).filter (fun p => p.1 = t)).isEmpty = false := by
      cases hfe : (childJsons ch).filter (fun p => p.1 = t) with
      | nil => rw [hfe] at hselc; simp at hselc
      | cons a l => simp [hfe]
    rw [hfilne] at hgrp
    simp only [Bool.false_eq_true, if_false] at hgrp
    rw [hselc] at hgrp
    rw [hgrp] at hmg
    simp only [] at hmg
    have hvals : childVals t ch
        = (node_to_json c1 :: node_to_json c2 :: l2.map node_to_json).map (fun el => jAtD el t) := by
      simp [childVals, hc1, hc2, List.map_map]
    rw [hcj, hvals]
    exact jGet_childrenResult_of_some hne hmg _

/-! ## C1: object key order -/

theorem lookupKey_mem {m : List (String × Json)} {k : String} {v : Json} :
    lookupKey k m = some v → v ∈ m.map (·.2) := by
  induction m with
  | nil => intro h; simp [lookupKey] at h
  | cons p rest ih =>
    obtain ⟨k', v'⟩ := p
    intro h
    simp only [lookupKey] at h
    by_cases he : k' = k
    · rw [if_pos he] at h
      injection h with h
      simp [h]
    · rw [if_neg he] at h
      simp only [List.map_cons, List.mem_cons]
      exact Or.inr (ih h)

theorem sorted_of_lookupKey {m : List (String × Json)} {k : String} {v : Json}
    (hm : ∀ p ∈ m, SortedJson p.2) (h : lookupKey k m = some v) : SortedJson v := by
  rcases List.mem_map.mp (lookupKey_mem h) with ⟨p, hp, hv⟩
  rw [← hv]
  exact hm p hp

theorem sortedJson_jAtD {j : Json} (h : SortedJson j) (k : String) : SortedJson (jAtD j k) := by
  cases h with
  | null => exact .null
  | str s => exact .null
  | arr xs hxs => exact .null
  | obj m hpw hvals =>
    simp only [jAtD, jGet]
    cases hl : lookupKey k m with
    | none => exact .null
    | some v => exact sorted_of_lookupKey hvals hl

theorem sortedJson_obj_insert {m : List (String × Json)} {k : String} {v : Json}
    (h : SortedJson (.obj m)) (hv : SortedJson v) : SortedJson (.obj (insertSorted k v m)) := by
  cases h with
  | obj m hpw hvals =>
    refine .obj _ (pairwise_insertSorted hpw) ?_
    intro p hp
    rcases mem_insertSorted hp with h | h
    · rw [h]; exact hv
    · exact hvals p h

theorem sorted_addAttrs (attrs : List (String × String)) :
    SortedJson (.obj (addAttrs attrs)) := by
  have haux : ∀ (l : List (String × String)) (acc : List (String × Json)),
      SortedJson (.obj acc) →
      SortedJson (.obj (l.foldl (fun acc p => insertSorted ("@" ++ p.1) (.str p.2) acc) acc)) := by
    intro l
    induction l with
    | nil => intro acc h; simpa using h
    | cons p rest ih =>
      intro acc h
      simp only [List.foldl_cons]
      exact ih _ (sortedJson_obj_insert h (.str _))
  exact haux attrs [] (.obj [] (by simp) (by simp))

theorem mem_groupInsert_val {x : Json} {k : String} {v : Json} :
    ∀ {g} {b : String × List Json}, b ∈ groupInsert k v g → x ∈ b.2 →
      x = v ∨ ∃ b' ∈ g, x ∈ b'.2 := by
  intro g
  induction g with
  | nil =>
    intro b hb hx
    simp [groupInsert] at hb
    rw [hb] at hx
    simp at hx
    exact Or.inl hx
  | cons q rest ih =>
    obtain ⟨k', vs⟩ := q
    intro b hb hx
    simp only [groupInsert] at hb
    by_cases h1 : strLt k k' = true
    · rw [if_pos h1] at hb
      rcases List.mem_cons.mp hb with h | h
      · rw [h] at hx; simp at hx; exact Or.inl hx
      · exact Or.inr ⟨b, h, hx⟩
    · rw [if_neg h1] at hb
      by_cases h2 : k = k'
      · rw [if_pos h2] at hb
        rcases List.mem_cons.mp hb with h | h
        · rw [h] at hx
          simp only [List.mem_append, List.mem_singleton] at hx
          rcases hx with hx | hx
          · exact Or.inr ⟨(k', vs), by simp, hx⟩
          · exact Or.inl hx
        · exact Or.inr ⟨b, List.mem_cons_of_mem _ h, hx⟩
      · rw [if_neg h2] at hb
        rcases List.mem_cons.mp hb with h | h
        · exact Or.inr ⟨b, by rw [h]; simp, hx⟩
        · rcases ih h hx with hh | hh
          · exact Or.inl hh
          · rcases hh with ⟨b', hb', hx'⟩
            exact Or.inr ⟨b', List.mem_cons_of_mem _ hb', hx'⟩

theorem buildGroups_vals {pairs : List (String × Json)} {b : String × List Json} {x : Json} :
    b ∈ buildGroups pairs → x ∈ b.2 → x ∈ pairs.map (·.2) := by
  have haux : ∀ (l : List (String × Json)) (g : List (String × List Json)),
      (∀ b' ∈ g, ∀ y ∈ b'.2, y ∈ l.map (·.2) ∨ ∃ b₀ ∈ g, False) →
      True := fun _ _ _ => trivial
  clear haux
  have main : ∀ (l : List (String × Json)) (g : List (String × List Json)),
      (∀ b' ∈ g, ∀ y ∈ b'.2, y ∈ pairs.map (·.2)) →
      (∀ p ∈ l, p.2 ∈ pairs.map (·.2)) →
      ∀ b' ∈ l.foldl (fun g p => groupInsert p.1 p.2 g) g, ∀ y ∈ b'.2, y ∈ pairs.map (·.2) := by
    intro l
    induction l with
    | nil => intro g hg _ b' hb' y hy; exact hg b' hb' y hy
    | cons p rest ih =>
      intro g hg hl b' hb' y hy
      simp only [List.foldl_cons] at hb'
      refine ih _ ?_ (fun q hq => hl q (List.mem_cons_of_mem _ hq)) b' hb' y hy
      intro b'' hb'' y' hy'
      rcases mem_groupInsert_val hb'' hy' with h | h
      · rw [h]; exact hl p (by simp)
      · rcases h with ⟨b₀, hb₀, hy₀⟩
        exact hg b₀ hb₀ y' hy₀
  intro hb hx
  exact main pairs [] (by simp) (fun p hp => List.mem_map_of_mem _ hp) _ hb _ hx

theorem sorted_mergeGroups {pairs : List (String × Json)}
    (hp : ∀ p ∈ pairs, SortedJson p.2) :
    SortedJson (.obj (mergeGroups (buildGroups pairs))) := by
  have hvals : ∀ b ∈ buildGroups pairs, ∀ x ∈ b.2, SortedJson x := by
    intro b hb x hx
    rcases List.mem_map.mp (buildGroups_vals hb hx) with ⟨p, hpm, hpe⟩
    rw [← hpe]
    exact hp p hpm
  have haux : ∀ (gs : List (String × List Json)),
      (∀ b ∈ gs, ∀ x ∈ b.2, SortedJson x) →
      ∀ acc, SortedJson (.obj acc) →
      SortedJson (.obj (gs.foldl
        (fun obj kv =>
          match kv.2 with
          | [single] => insertSorted kv.1 (jAtD single kv.1) obj
          | vs => insertSorted kv.1 (Json.arr (vs.map (fun el => jAtD el kv.1))) obj)
        acc)) := by
    intro gs
    induction gs with
    | nil => intro _ acc h; simpa using h
    | cons kv gs' ih =>
      intro hgs acc hacc
      simp only [List.foldl_cons]
      have hkv : ∀ x ∈ kv.2, SortedJson x := hgs kv (by simp)
      have hstep : SortedJson (.obj
          (match kv.2 with
           | [single] => insertSorted kv.1 (jAtD single kv.1) acc
           | vs => insertSorted kv.1 (Json.arr (vs.map (fun el => jAtD el kv.1))) acc)) := by
        cases hv : kv.2 with
        | nil => exact sortedJson_obj_insert hacc (.arr _ (by simp))
        | cons x xs =>
          cases xs with
          | nil =>
            exact sortedJson_obj_insert hacc
              (sortedJson_jAtD (hkv x (by simp [hv])) _)
          | cons y ys =>
            refine sortedJson_obj_insert hacc (.arr _ ?_)
            intro j hj
            rcases List.mem_map.mp hj with ⟨el, hel, he⟩
            rw [← he]
            exact sortedJson_jAtD (hkv el (by rw [hv]; exact hel)) _
      exact ih (fun b hb => hgs b (List.mem_cons_of_mem _ hb)) _ hstep
  exact haux _ hvals [] (.obj [] (by simp) (by simp))

theorem sorted_childrenResult {pairs : List (String × Json)} (content : String)
    (hp : ∀ p ∈ pairs, SortedJson p.2) :
    SortedJson (childrenResult pairs content) := by
  simp only [childrenResult]
  by_cases h1 : trimChars content = ""
  · rw [if_pos h1]
    exact sorted_mergeGroups hp
  · rw [if_neg h1]
    by_cases h2 : (mergeGroups (buildGroups pairs)).isEmpty = true
    · rw [if_pos h2]
      exact .str _
    · rw [if_neg h2]
      exact sortedJson_obj_insert (sorted_mergeGroups hp) (.str _)

theorem sorted_mergeKids {attrsObj : List (String × Json)} {kids : Json}
    (ha : SortedJson (.obj attrsObj)) (hk : SortedJson kids) :
    SortedJson (mergeKids attrsObj kids) := by
  cases hk with
  | null => exact ha
  | str s =>
    simp only [mergeKids]
    by_cases h : attrsObj.isEmpty = true
    · rw [if_pos h]; exact .str s
    · rw [if_neg h]; exact sortedJson_obj_insert ha (.str s)
  | arr xs hxs =>
    simp only [mergeKids]
    by_cases h : attrsObj.isEmpty = true
    · rw [if_pos h]; exact .arr xs hxs
    · rw [if_neg h]; exact sortedJson_obj_insert ha (.arr xs hxs)
  | obj m hpw hvals =>
    simp only [mergeKids]
    have haux : ∀ (l : List (String × Json)),
        (∀ p ∈ l, SortedJson p.2) →
        ∀ acc, SortedJson (.obj acc) →
        SortedJson (.obj (l.foldl (fun acc p => insertSorted p.1 p.2 acc) acc)) := by
      intro l
      induction l with
      | nil => intro _ acc h; simpa using h
      | cons p rest ih =>
        intro hl acc hacc
        simp only [List.foldl_cons]
        exact ih (fun q hq => hl q (List.mem_cons_of_mem _ hq)) _
          (sortedJson_obj_insert hacc (hl p (by simp)))
    exact haux m hvals attrsObj ha

theorem mem_childJsons {p : String × Json} :
    ∀ {ch : List XNode}, p ∈ childJsons ch → ∃ c ∈ ch, p.2 = node_to_json c := by
  intro ch
  induction ch with
  | nil => intro h; simp [childJsons] at h
  | cons c rest ih =>
    intro h
    cases c with
    | text s =>
      rw [childJsons] at h
      rcases ih h with ⟨c', hc', he⟩
      exact ⟨c', List.mem_cons_of_mem _ hc', he⟩
    | elem n a k =>
      rw [childJsons] at h
      rcases List.mem_cons.mp h with h | h
      · exact ⟨.elem n a k, by simp, by rw [h]⟩
      · rcases ih h with ⟨c', hc', he⟩
        exact ⟨c', List.mem_cons_of_mem _ hc', he⟩

theorem node_to_json_sorted_aux :
    ∀ (k : Nat) (n : XNode), sizeOf n ≤ k → SortedJson (node_to_json n) := by
  intro k
  induction k using Nat.strong_induction_on with
  | _ k ih =>
    intro n hsize
    cases n with
    | text s =>
      rw [node_to_json]
      exact .str s
    | elem name attrs ch =>
      have hch : ∀ p ∈ childJsons ch, SortedJson p.2 := by
        intro p hp
        rcases mem_childJsons hp with ⟨c, hc, he⟩
        have hlt : sizeOf c < sizeOf (XNode.elem name attrs ch) := by
          have h1 := List.sizeOf_lt_of_mem hc
          have h2 : sizeOf ch < sizeOf (XNode.elem name attrs ch) := by
            simp [XNode.elem.sizeOf_spec]
          omega
        have hck : sizeOf c < k := lt_of_lt_of_le hlt hsize
        rw [he]
        exact ih (sizeOf c) hck c (le_refl _)
      rw [node_to_json]
      have hinner : SortedJson
          (mergeKids (addAttrs attrs) (childrenResult (childJsons ch) (XNode.contentList ch))) :=
        sorted_mergeKids (sorted_addAttrs attrs) (sorted_childrenResult _ hch)
      refine .obj _ (by simp) ?_
      intro p hp
      simp only [List.mem_singleton] at hp
      rw [hp]
      cases hm : mergeKids (addAttrs attrs) (childrenResult (childJsons ch) (XNode.contentList ch)) with
      | null => exact .obj [] (by simp) (by simp)
      | str s => rw [hm] at hinner; exact hinner
      | arr xs => rw [hm] at hinner; exact hinner
      | obj m => rw [hm] at hinner; exact hinner

theorem node_to_json_sorted (n : XNode) : SortedJson (node_to_json n) :=
  node_to_json_sorted_aux (sizeOf n) n (le_refl _)

theorem children_to_json_sorted (n : XNode) : SortedJson (children_to_json n) := by
  cases n with
  | text s =>
    simp only [children_to_json]
    exact sorted_childrenResult _ (by simp)
  | elem name attrs ch =>
    simp only [children_to_json]
    refine sorted_childrenResult _ ?_
    intro p hp
    rcases mem_childJsons hp with ⟨c, _, he⟩
    rw [he]
    exact node_to_json_sorted c

/-- C1 (amended): every object anywhere in a value produced by the
generic mapper has its keys in strictly increasing lexicographic
(`std::string::operator<`) order — the `std::map` iteration order — not
in first-seen/insertion order. -/
theorem generic_mapper_keys_sorted (n : XNode) :
    SortedJson (node_to_json n) ∧ SortedJson (children_to_json n) :=
  ⟨node_to_json_sorted n, children_to_json_sorted n⟩

/-- C1 counterexample: for children `<b/>` then `<a/>` the resulting keys
are `["a", "b"]` (sorted), while the first-seen document order of the
distinct child tag names is `["b", "a"]` — the claimed insertion order
does not hold. -/
theorem keys_not_first_seen :
    objKeys (children_to_json cexC1) = ["a", "b"] ∧
    firstSeenTags (XNode.kids cexC1) = ["b", "a"] ∧
    objKeys (children_to_json cexC1) ≠ firstSeenTags (XNode.kids cexC1) := by
  refine ⟨?_, by decide, ?_⟩
  · simp [cexC1, children_to_json, node_to_json, childJsons, mergeKids, addAttrs,
      childrenResult, mergeGroups, buildGroups, XNode.contentList, trimChars, isWs, jAtD,
      jGet, lookupKey, insertSorted, groupInsert, strLt, charsLt, objKeys]
  · intro h
    have h1 : objKeys (children_to_json cexC1) = ["a", "b"] := by
      simp [cexC1, children_to_json, node_to_json, childJsons, mergeKids, addAttrs,
        childrenResult, mergeGroups, buildGroups, XNode.contentList, trimChars, isWs, jAtD,
        jGet, lookupKey, insertSorted, groupInsert, strLt, charsLt, objKeys]
    have h2 : firstSeenTags (XNode.kids cexC1) = ["b", "a"] := by decide
    rw [h1, h2] at h
    simp at h

/-! ## C2: text attachment -/

theorem childJsons_nil {ch : List XNode} (h : ∀ c ∈ ch, elemName? c = none) :
    childJsons ch = [] := by
  induction ch with
  | nil => rw [childJsons]
  | cons c rest ih =>
    cases c with
    | text s =>
      rw [childJsons]
      exact ih fun c hc => h c (List.mem_cons_of_mem _ hc)
    | elem n a k =>
      have := h (.elem n a k) (by simp)
      simp [elemName?] at this

theorem mem_childJsons_name {p : String × Json} :
    ∀ {ch : List XNode}, p ∈ childJsons ch → ∃ c ∈ ch, elemName? c = some p.1 := by
  intro ch
  induction ch with
  | nil => intro h; simp [childJsons] at h
  | cons c rest ih =>
    intro h
    cases c with
    | text s =>
      rw [childJsons] at h
      rcases ih h with ⟨c', hc', he⟩
      exact ⟨c', List.mem_cons_of_mem _ hc', he⟩
    | elem n a k =>
      rw [childJsons] at h
      rcases List.mem_cons.mp h with h | h
      · exact ⟨.elem n a k, by simp, by rw [h]; rfl⟩
      · rcases ih h with ⟨c', hc', he⟩
        exact ⟨c', List.mem_cons_of_mem _ hc', he⟩

theorem at_append_ne_text (s : String) : ("@" ++ s) ≠ "#text" := by
  intro h
  have hd : ("@" ++ s).data = "#text".data := by rw [h]
  rw [String.data_append] at hd
  simp at hd

theorem lookupKey_addAttrs_text (attrs : List (String × String)) :
    lookupKey "#text" (addAttrs attrs) = none := by
  have haux : ∀ (l : List (String × String)) (acc : List (String × Json)),
      lookupKey "#text" acc = none →
      lookupKey "#text" (l.foldl (fun acc p => insertSorted ("@" ++ p.1) (.str p.2) acc) acc)
        = none := by
    intro l
    induction l with
    | nil => intro acc h; simpa using h
    | cons p rest ih =>
      intro acc h
      simp only [List.foldl_cons]
      refine ih _ ?_
      rw [lookupKey_insertSorted_ne (at_append_ne_text p.1)]
      exact h
  exact haux attrs [] rfl

theorem addAttrs_ne_nil {attrs : List (String × String)} (h : attrs ≠ []) :
    addAttrs attrs ≠ [] := by
  have haux : ∀ (l : List (String × String)) (acc : List (String × Json)),
      acc ≠ [] ∨ l ≠ [] →
      l.foldl (fun acc p => insertSorted ("@" ++ p.1) (.str p.2) acc) acc ≠ [] := by
    intro l
    induction l with
    | nil =>
      intro acc h
      rcases h with h | h
      · simpa using h
      · exact absurd rfl h
    | cons p rest ih =>
      intro acc _
      simp only [List.foldl_cons]
      exact ih _ (Or.inl (insertSorted_ne_nil _ _ _))
  exact haux attrs [] (Or.inr h)

theorem groupInsert_ne_nil (k : String) (v : Json) (g : List (String × List Json)) :
    groupInsert k v g ≠ [] := by
  cases g with
  | nil => simp [groupInsert]
  | cons p rest =>
    simp only [groupInsert]
    split
    · simp
    · split <;> simp

theorem buildGroups_ne_nil {pairs : List (String × Json)} (h : pairs ≠ []) :
    buildGroups pairs ≠ [] := by
  have haux : ∀ (l : List (String × Json)) (g : List (String × List Json)),
      g ≠ [] ∨ l ≠ [] →
      l.foldl (fun g p => groupInsert p.1 p.2 g) g ≠ [] := by
    intro l
    induction l with
    | nil =>
      intro g hg
      rcases hg with hg | hg
      · simpa using hg
      · exact absurd rfl hg
    | cons p rest ih =>
      intro g _
      simp only [List.foldl_cons]
      exact ih _ (Or.inl (groupInsert_ne_nil _ _ _))
  exact haux pairs [] (Or.inr h)

theorem mergeGroups_ne_nil {gs : List (String × List Json)} (h : gs ≠ []) :
    mergeGroups gs ≠ [] := by
  have haux : ∀ (l : List (String × List Json)) (acc : List (String × Json)),
      acc ≠ [] ∨ l ≠ [] →
      l.foldl
        (fun obj kv =>
          match kv.2 with
          | [single] => insertSorted kv.1 (jAtD single kv.1) obj
          | vs => insertSorted kv.1 (Json.arr (vs.map (fun el => jAtD el kv.1))) obj)
        acc ≠ [] := by
    intro l
    induction l with
    | nil =>
      intro acc hg
      rcases hg with hg | hg
      · simpa using hg
      · exact absurd rfl hg
    | cons kv rest ih =>
      intro acc _
      simp only [List.foldl_cons]
      refine ih _ (Or.inl ?_)
      cases hv : kv.2 with
      | nil => exact insertSorted_ne_nil _ _ _
      | cons x xs => cases xs <;> exact insertSorted_ne_nil _ _ _
  exact haux gs [] (Or.inr h)

theorem mem_foldl_insert_key :
    ∀ (l : List (String × Json)) (acc : List (String × Json)) (p : String × Json),
      p ∈ l.foldl (fun acc q => insertSorted q.1 q.2 acc) acc →
      p.1 ∈ l.map (·.1) ∨ p ∈ acc := by
  intro l
  induction l with
  | nil => intro acc p h; exact Or.inr h
  | cons q rest ih =>
    intro acc p h
    simp only [List.foldl_cons] at h
    rcases ih _ _ h with hh | hh
    · exact Or.inl (by simp only [List.map_cons, List.mem_cons]; exact Or.inr hh)
    · rcases mem_insertSorted hh with he | he
      · exact Or.inl (by simp [he])
      · exact Or.inr he

theorem mem_mergeGroups_key {gs : List (String × List Json)} {p : String × Json} :
    p ∈ mergeGroups gs → p.1 ∈ gs.map (·.1) := by
  have haux : ∀ (l : List (String × List Json)) (acc : List (String × Json)) (p : String × Json),
      p ∈ l.foldl
        (fun obj kv =>
          match kv.2 with
          | [single] => insertSorted kv.1 (jAtD single kv.1) obj
          | vs => insertSorted kv.1 (Json.arr (vs.map (fun el => jAtD el kv.1))) obj)
        acc →
      p.1 ∈ l.map (·.1) ∨ p ∈ acc := by
    intro l
    induction l with
    | nil => intro acc p h; exact Or.inr h
    | cons kv rest ih =>
      intro acc p h
      simp only [List.foldl_cons] at h
      rcases ih _ _ h with hh | hh
      · exact Or.inl (by simp only [List.map_cons, List.mem_cons]; exact Or.inr hh)
      · have hm : p = (kv.1, jAtD (kv.2.headD .null) kv.1) ∨
            p = (kv.1, Json.arr (kv.2.map (fun el => jAtD el kv.1))) ∨ p ∈ acc := by
          cases hv : kv.2 with
          | nil =>
            rw [hv] at hh
            rcases mem_insertSorted hh with he | he
            · right; left; simp [he]
            · right; right; exact he
          | cons x xs =>
            cases xs with
            | nil =>
              rw [hv] at hh
              rcases mem_insertSorted hh with he | he
              · left; simp [he]
              · right; right; exact he
            | cons y ys =>
              rw [hv] at hh
              rcases mem_insertSorted hh with he | he
              · right; left; simp [he]
              · right; right; exact he
        rcases hm with he | he | he
        · exact Or.inl (by simp [he])
        · exact Or.inl (by simp [he])
        · exact Or.inr he
  intro h
  rcases haux gs [] _ h with hh | hh
  · exact hh
  · simp at hh

theorem mem_buildGroups_key {pairs : List (String × Json)} {b : String × List Json} :
    b ∈ buildGroups pairs → b.1 ∈ pairs.map (·.1) := by
  have haux : ∀ (l : List (String × Json)) (g : List (String × List Json)) (b : String × List Json),
      b ∈ l.foldl (fun g p => groupInsert p.1 p.2 g) g →
      b.1 ∈ l.map (·.1) ∨ b.1 ∈ g.map (·.1) := by
    intro l
    induction l with
    | nil => intro g b h; exact Or.inr (List.mem_map_of_mem _ h)
    | cons p rest ih =>
      intro g b h
      simp only [List.foldl_cons] at h
      rcases ih _ _ h with hh | hh
      · exact Or.inl (by simp only [List.map_cons, List.mem_cons]; exact Or.inr hh)
      · rcases List.mem_map.mp hh with ⟨b', hb', he⟩
        rcases mem_groupInsert_key hb' with hk | hk
        · exact Or.inl (by simp [← he, hk])
        · exact Or.inr (he ▸ hk)
  intro h
  rcases haux pairs [] _ h with hh | hh
  · exact hh
  · simp at hh

theorem lookupKey_foldl_insert_ne {k : String} :
    ∀ (l : List (String × Json)), (∀ p ∈ l, p.1 ≠ k) →
      ∀ acc, lookupKey k (l.foldl (fun acc q => insertSorted q.1 q.2 acc) acc)
        = lookupKey k acc := by
  intro l
  induction l with
  | nil => intro _ acc; rfl
  | cons q rest ih =>
    intro hl acc
    simp only [List.foldl_cons]
    rw [ih (fun p hp => hl p (List.mem_cons_of_mem _ hp))]
    exact lookupKey_insertSorted_ne (hl q (by simp)) _ _

theorem lookupKey_foldl_insert_of_mem {k : String} {v : Json} :
    ∀ (l : List (String × Json)), l.Pairwise (fun a b => strLt a.1 b.1 = true) →
      lookupKey k l = some v →
      ∀ acc, lookupKey k (l.foldl (fun acc q => insertSorted q.1 q.2 acc) acc) = some v := by
  intro l
  induction l with
  | nil => intro _ h; simp [lookupKey] at h
  | cons q rest ih =>
    intro hpw hl acc
    rw [List.pairwise_cons] at hpw
    obtain ⟨hhead, hrest⟩ := hpw
    simp only [List.foldl_cons]
    simp only [lookupKey] at hl
    by_cases he : q.1 = k
    · rw [if_pos he] at hl
      injection hl with hl
      have hne : ∀ p ∈ rest, p.1 ≠ k := by
        intro p hp hk
        have := hhead p hp
        rw [hk, ← he] at this
        rw [strLt_irrefl] at this
        exact Bool.false_ne_true this
      rw [lookupKey_foldl_insert_ne rest hne]
      rw [← he, ← hl]
      exact lookupKey_insertSorted_self q.1 q.2 acc
    · rw [if_neg he] at hl
      exact ih hrest hl _

theorem node_to_json_jAtD (name : String) (attrs : List (String × String)) (ch : List XNode) :
    jAtD (node_to_json (.elem name attrs ch)) name
      = (match mergeKids (addAttrs attrs) (childrenResult (childJsons ch) (XNode.contentList ch)) with
         | .null => .obj []
         | x => x) := by
  rw [node_to_json_elem]
  simp [jAtD, jGet, lookupKey]

theorem childJsons_ne_nil_of_elem {ch : List XNode} (h : ∃ c ∈ ch, (elemName? c).isSome) :
    childJsons ch ≠ [] := by
  induction ch with
  | nil => simp at h
  | cons c rest ih =>
    cases c with
    | text s =>
      rw [childJsons]
      refine ih ?_
      rcases h with ⟨c', hc', hs⟩
      rcases List.mem_cons.mp hc' with he | he
      · rw [he] at hs; simp [elemName?] at hs
      · exact ⟨c', he, hs⟩
    | elem n a k =>
      rw [childJsons]
      simp

/-- C2 (amended): the text the generic mapper attaches is the trimmed
concatenation of ALL descendant text (`xmlNodeGetContent` of the whole
subtree), not only the element's direct text.  A leaf element (no
attributes, no child elements, non-empty trimmed text) maps to that
trimmed text as a plain string; any other element stores the trimmed
subtree text under `"#text"` exactly when it is non-empty, and an
empty-after-trim subtree text contributes nothing. -/
theorem text_attachment (name : String) (attrs : List (String × String)) (ch : List XNode)
    (hnt : ∀ c ∈ ch, elemName? c ≠ some "#text") :
    (attrs = [] → (∀ c ∈ ch, elemName? c = none) → trimChars (XNode.contentList ch) ≠ "" →
      node_to_json (.elem name attrs ch)
        = .obj [(name, .str (trimChars (XNode.contentList ch)))]) ∧
    ((attrs ≠ [] ∨ ∃ c ∈ ch, (elemName? c).isSome) →
      jGet (jAtD (node_to_json (.elem name attrs ch)) name) "#text"
        = (if trimChars (XNode.contentList ch) = "" then none
           else some (.str (trimChars (XNode.contentList ch))))) := by
  have hvals : ∀ p ∈ childJsons ch, SortedJson p.2 := by
    intro p hp
    rcases mem_childJsons hp with ⟨c, _, he⟩
    rw [he]
    exact node_to_json_sorted c
  have hMGpw : (mergeGroups (buildGroups (childJsons ch))).Pairwise
      (fun a b => strLt a.1 b.1 = true) := by
    cases sorted_mergeGroups hvals with
    | obj _ hpw _ => exact hpw
  have hMGkeys : ∀ p ∈ mergeGroups (buildGroups (childJsons ch)), p.1 ≠ "#text" := by
    intro p hp
    rcases List.mem_map.mp (mem_mergeGroups_key hp) with ⟨b, hb, hbe⟩
    rcases List.mem_map.mp (mem_buildGroups_key hb) with ⟨q, hq, hqe⟩
    rcases mem_childJsons_name hq with ⟨c, hc, hcn⟩
    intro he
    exact hnt c hc (by rw [hcn, hqe, hbe, he])
  constructor
  · intro ha hch ht
    rw [node_to_json_elem, ha, childJsons_nil hch]
    simp only [addAttrs, List.foldl_nil, childrenResult, buildGroups, mergeGroups,
      List.isEmpty_nil, if_neg ht, if_pos rfl, mergeKids]
    rfl
  · intro hcase
    rw [node_to_json_jAtD]
    by_cases ht : trimChars (XNode.contentList ch) = ""
    · rw [if_pos ht]
      have hcr : childrenResult (childJsons ch) (XNode.contentList ch)
          = .obj (mergeGroups (buildGroups (childJsons ch))) := by
        simp only [childrenResult, if_pos ht]
      rw [hcr]
      simp only [mergeKids, jGet]
      rw [lookupKey_foldl_insert_ne _ hMGkeys]
      exact lookupKey_addAttrs_text attrs
    · rw [if_neg ht]
      by_cases hMG : mergeGroups (buildGroups (childJsons ch)) = []
      · have hattrs : attrs ≠ [] := by
          rcases hcase with ha2 | hel
          · exact ha2
          · exfalso
            exact (mergeGroups_ne_nil (buildGroups_ne_nil (childJsons_ne_nil_of_elem hel))) hMG
        have hA : (addAttrs attrs).isEmpty = false := by
          cases he2 : addAttrs attrs with
          | nil => exact absurd he2 (addAttrs_ne_nil hattrs)
          | cons a l => simp
        have hcr : childrenResult (childJsons ch) (XNode.contentList ch)
            = .str (trimChars (XNode.contentList ch)) := by
          simp [childrenResult, if_neg ht, hMG]
        rw [hcr]
        simp only [mergeKids, hA, Bool.false_eq_true, if_false, jGet]
        exact lookupKey_insertSorted_self "#text" _ (addAttrs attrs)
      · have hMGe : (mergeGroups (buildGroups (childJsons ch))).isEmpty = false := by
          cases he2 : mergeGroups (buildGroups (childJsons ch)) with
          | nil => exact absurd he2 hMG
          | cons a l => simp
        have hcr : childrenResult (childJsons ch) (XNode.contentList ch)
            = .obj (insertSorted "#text" (.str (trimChars (XNode.contentList ch)))
                (mergeGroups (buildGroups (childJsons ch)))) := by
          simp only [childrenResult, if_neg ht, hMGe, Bool.false_eq_true, if_false]
        rw [hcr]
        simp only [mergeKids, jGet]
        exact lookupKey_foldl_insert_of_mem _ (pairwise_insertSorted hMGpw)
          (lookupKey_insertSorted_self "#text" _ _) (addAttrs attrs)

/-- C2 counterexample: for `<a><b>x</b></a>` the element's own direct
text is empty after trimming — by the claim nothing should be attached —
yet the program stores `"#text": "x"`, the aggregated subtree text. -/
theorem text_not_direct :
    trimChars (directText (XNode.kids cexC2)) = "" ∧
    jGet (children_to_json cexC2) "#text" = some (.str "x") := by
  constructor
  · rfl
  · simp [cexC2, children_to_json, node_to_json, childJsons, mergeKids, addAttrs,
      childrenResult, mergeGroups, buildGroups, XNode.contentList, trimChars, isWs, jAtD,
      jGet, lookupKey, insertSorted, groupInsert, strLt, charsLt]

/-! ## C9: the host-record normalizer's addresses/hostnames blocks -/

theorem jGet_jset_ne {k k0 : String} (h : k ≠ k0) (j v : Json) :
    jGet (jset j k v) k0 = jGet j k0 := by
  cases j with
  | null =>
    simp only [jset, Json.set, Option.getD, jGet, lookupKey]
    rw [if_neg h]
  | str s => rfl
  | arr xs => rfl
  | obj m =>
    simp only [jset, Json.set, Option.getD, jGet]
    exact lookupKey_insertSorted_ne h v m

theorem jGet_jset_obj (m : List (String × Json)) (k : String) (v : Json) :
    jGet (jset (.obj m) k v) k = some v := by
  simp only [jset, Json.set, Option.getD, jGet]
  exact lookupKey_insertSorted_self k v m

theorem jGet_foldl_pass {α : Type} (g : Json → α → Json) (k : String) :
    ∀ l : List α, (∀ o, ∀ n ∈ l, jGet (g o n) k = jGet o k) →
      ∀ o : Json, jGet (List.foldl g o l) k = jGet o k := by
  intro l
  induction l with
  | nil => intro _ o; rfl
  | cons n rest ih =>
    intro hg o
    rw [List.foldl_cons, ih (fun o' n' hn' => hg o' n' (List.mem_cons_of_mem _ hn'))]
    exact hg o n (by simp)

theorem obj_foldl_pass {α : Type} (g : Json → α → Json)
    (hg : ∀ m n, ∃ m', g (.obj m) n = .obj m') :
    ∀ (l : List α) (m), ∃ m', List.foldl g (.obj m) l = .obj m' := by
  intro l
  induction l with
  | nil => intro m; exact ⟨m, rfl⟩
  | cons n rest ih =>
    intro m
    rw [List.foldl_cons]
    rcases hg m n with ⟨m1, hm1⟩
    rw [hm1]
    exact ih m1

theorem addr_fold_eq (l : List XNode) (acc : List Json) :
    List.foldl (fun arr n => if elemName? n = some "address" then arr ++ [addrEntry n] else arr)
      acc l
      = acc ++ (l.filter (fun n => elemName? n = some "address")).map addrEntry := by
  induction l generalizing acc with
  | nil => simp
  | cons n rest ih =>
    by_cases h : elemName? n = some "address"
    · simp [List.filter_cons, h, ih]
    · simp [List.filter_cons, h, ih]

theorem hn_fold_eq (l : List XNode) (acc : List Json) :
    List.foldl (fun names h => if elemName? h = some "hostname" then names ++ [hnEntry h] else names)
      acc l
      = acc ++ (l.filter (fun h => elemName? h = some "hostname")).map hnEntry := by
  induction l generalizing acc with
  | nil => simp
  | cons n rest ih =>
    by_cases h : elemName? n = some "hostname"
    · simp [List.filter_cons, h, ih]
    · simp [List.filter_cons, h, ih]

theorem status_pass_preserve {k : String} (hk : "status" ≠ k) (l : List XNode) (o : Json) :
    jGet (List.foldl
      (fun out n =>
        if elemName? n = some "status" then
          match getProp n "state" with
          | some s => jset out "status" (.str s)
          | none => out
        else out) o l) k = jGet o k := by
  refine jGet_foldl_pass _ k l ?_ o
  intro o' n _
  by_cases h : elemName? n = some "status"
  · rw [if_pos h]
    cases getProp n "state" with
    | none => rfl
    | some s => exact jGet_jset_ne hk _ _
  · rw [if_neg h]

theorem hostnames_pass_preserve {k : String} (hk : "hostnames" ≠ k) (l : List XNode) (o : Json) :
    jGet (List.foldl
      (fun out n =>
        if elemName? n = some "hostnames" then
          if (List.foldl
                (fun names h => if elemName? h = some "hostname" then names ++ [hnEntry h] else names)
                [] n.kids).isEmpty = true then out
          else
            jset out "hostnames"
              (Json.arr (List.foldl
                (fun names h => if elemName? h = some "hostname" then names ++ [hnEntry h] else names)
                [] n.kids))
        else out) o l) k = jGet o k := by
  refine jGet_foldl_pass _ k l ?_ o
  intro o' n _
  by_cases h : elemName? n = some "hostnames"
  · rw [if_pos h]
    by_cases h2 : (List.foldl
        (fun names h => if elemName? h = some "hostname" then names ++ [hnEntry h] else names)
        [] n.kids).isEmpty = true
    · rw [if_pos h2]
    · rw [if_neg h2]
      exact jGet_jset_ne hk _ _
  · rw [if_neg h]

theorem ports_pass_preserve {k : String} (hk : "ports" ≠ k) (l : List XNode) (o : Json) :
    jGet (List.foldl
      (fun out n =>
        if elemName? n = some "ports" then
          if (List.foldl (fun arr p => if elemName? p = some "port" then arr ++ [portObj p] else arr)
                [] n.kids).isEmpty = true then out
          else
            jset out "ports"
              (Json.arr (List.foldl
                (fun arr p => if elemName? p = some "port" then arr ++ [portObj p] else arr)
                [] n.kids))
        else out) o l) k = jGet o k := by
  refine jGet_foldl_pass _ k l ?_ o
  intro o' n _
  by_cases h : elemName? n = some "ports"
  · rw [if_pos h]
    by_cases h2 : (List.foldl
        (fun arr p => if elemName? p = some "port" then arr ++ [portObj p] else arr)
        [] n.kids).isEmpty = true
    · rw [if_pos h2]
    · rw [if_neg h2]
      exact jGet_jset_ne hk _ _
  · rw [if_neg h]

theorem hostscript_pass_preserve {k : String} (hk : "hostscripts" ≠ k) (l : List XNode) (o : Json) :
    jGet (List.foldl
      (fun out n =>
        if elemName? n = some "hostscript" then
          if (List.foldl (fun hs s => if elemName? s = some "script" then hs ++ [script_to_sc s] else hs)
                [] n.kids).isEmpty = true then out
          else
            jset out "hostscripts"
              (Json.arr (List.foldl
                (fun hs s => if elemName? s = some "script" then hs ++ [script_to_sc s] else hs)
                [] n.kids))
        else out) o l) k = jGet o k := by
  refine jGet_foldl_pass _ k l ?_ o
  intro o' n _
  by_cases h : elemName? n = some "hostscript"
  · rw [if_pos h]
    by_cases h2 : (List.foldl
        (fun hs s => if elemName? s = some "script" then hs ++ [script_to_sc s] else hs)
        [] n.kids).isEmpty = true
    · rw [if_pos h2]
    · rw [if_neg h2]
      exact jGet_jset_ne hk _ _
  · rw [if_neg h]

theorem uptime_pass_preserve {k : String} (hk : "uptime" ≠ k) (l : List XNode) (o : Json) :
    jGet (List.foldl
      (fun out n =>
        if elemName? n = some "uptime" then
          if jEmpty (propSet (propSet Json.null n "seconds") n "lastboot") = true then out
          else jset out "uptime" (propSet (propSet Json.null n "seconds") n "lastboot")
        else out) o l) k = jGet o k := by
  refine jGet_foldl_pass _ k l ?_ o
  intro o' n _
  by_cases h : elemName? n = some "uptime"
  · rw [if_pos h]
    by_cases h2 : jEmpty (propSet (propSet Json.null n "seconds") n "lastboot") = true
    · rw [if_pos h2]
    · rw [if_neg h2]
      exact jGet_jset_ne hk _ _
  · rw [if_neg h]

theorem starttime_base_ne {k : String} (h : "starttime" ≠ k) (host : XNode) :
    jGet (match getProp host "starttime" with
          | some st => jset (Json.obj []) "starttime" (Json.str st)
          | none => Json.obj []) k = none := by
  cases getProp host "starttime" with
  | none => rfl
  | some st =>
    simp only []
    rw [jGet_jset_ne h]
    rfl

theorem status_base_obj (host : XNode) (l : List XNode) :
    ∃ m, List.foldl
      (fun out n =>
        if elemName? n = some "status" then
          match getProp n "state" with
          | some s => jset out "status" (.str s)
          | none => out
        else out)
      (match getProp host "starttime" with
       | some st => jset (Json.obj []) "starttime" (Json.str st)
       | none => Json.obj []) l = .obj m := by
  have hbase : ∃ m0, (match getProp host "starttime" with
      | some st => jset (Json.obj []) "starttime" (Json.str st)
      | none => Json.obj []) = Json.obj m0 := by
    cases getProp host "starttime" with
    | none => exact ⟨[], rfl⟩
    | some st => exact ⟨_, rfl⟩
  rcases hbase with ⟨m0, hm0⟩
  rw [hm0]
  refine obj_foldl_pass _ ?_ l m0
  intro m n
  by_cases h : elemName? n = some "status"
  · rw [if_pos h]
    cases getProp n "state" with
    | none => exact ⟨m, rfl⟩
    | some s => exact ⟨_, rfl⟩
  · rw [if_neg h]
    exact ⟨m, rfl⟩

theorem hostnames_pass_none (l : List XNode)
    (hyp : ∀ n ∈ l, elemName? n = some "hostnames" →
      ∀ h ∈ n.kids, elemName? h ≠ some "hostname") (o : Json) :
    jGet (List.foldl
      (fun out n =>
        if elemName? n = some "hostnames" then
          if (List.foldl
                (fun names h => if elemName? h = some "hostname" then names ++ [hnEntry h] else names)
                [] n.kids).isEmpty = true then out
          else
            jset out "hostnames"
              (Json.arr (List.foldl
                (fun names h => if elemName? h = some "hostname" then names ++ [hnEntry h] else names)
                [] n.kids))
        else out) o l) "hostnames" = jGet o "hostnames" := by
  refine jGet_foldl_pass _ "hostnames" l ?_ o
  intro o' n hn
  by_cases h : elemName? n = some "hostnames"
  · rw [if_pos h]
    have hfil : n.kids.filter (fun h => elemName? h = some "hostname") = [] := by
      rw [List.filter_eq_nil_iff]
      intro a ha
      simpa using hyp n hn h a ha
    have hempty : (List.foldl
        (fun names h => if elemName? h = some "hostname" then names ++ [hnEntry h] else names)
        [] n.kids).isEmpty = true := by
      rw [hn_fold_eq, hfil]
      rfl
    rw [if_pos hempty]
  · rw [if_neg h]

/-- C9 (amended): each `address` child contributes exactly one entry to
`addresses`, in document order — an object of the `addr`/`addrtype`/
`vendor` attributes that are present, or `null` (not an object) when the
address element carries none of them; the `addresses` key is omitted
exactly when there is no `address` child, and the `hostnames` key is
omitted when no `hostnames` child has a `hostname` child. -/
theorem host_addresses (host : XNode) :
    (jGet (nmap_host_to_obj host) "addresses"
      = (if (host.kids.filter (fun n => elemName? n = some "address")).isEmpty = true then none
         else some (.arr
           ((host.kids.filter (fun n => elemName? n = some "address")).map addrEntry)))) ∧
    ((∀ n ∈ host.kids, elemName? n = some "hostnames" →
        ∀ h ∈ n.kids, elemName? h ≠ some "hostname") →
      jGet (nmap_host_to_obj host) "hostnames" = none) ∧
    (∀ n : XNode,
      (addrEntry n = Json.null ↔
        getProp n "addr" = none ∧ getProp n "addrtype" = none ∧ getProp n "vendor" = none) ∧
      ((addrEntry n).isObj = true ∨ addrEntry n = Json.null)) := by
  refine ⟨?_, ?_, ?_⟩
  · simp only [nmap_host_to_obj]
    rw [jGet_jset_ne (by decide), uptime_pass_preserve (by decide),
      hostscript_pass_preserve (by decide), ports_pass_preserve (by decide),
      hostnames_pass_preserve (by decide), addr_fold_eq, List.nil_append]
    by_cases haddr :
        ((host.kids.filter (fun n => elemName? n = some "address")).map addrEntry).isEmpty = true
    · rw [if_pos haddr]
      have hfe : host.kids.filter (fun n => elemName? n = some "address") = [] :=
        List.map_eq_nil_iff.mp (List.isEmpty_iff.mp haddr)
      rw [status_pass_preserve (by decide), starttime_base_ne (by decide)]
      rw [hfe]
      rfl
    · rw [if_neg haddr]
      rcases status_base_obj host host.kids with ⟨m, hm⟩
      rw [hm, jGet_jset_obj]
      have hfne : host.kids.filter (fun n => elemName? n = some "address") ≠ [] := by
        intro he
        exact haddr (by rw [he]; rfl)
      have : (host.kids.filter (fun n => elemName? n = some "address")).isEmpty = false := by
        simp [List.isEmpty_iff, hfne]
      rw [this]
      simp
  · intro hyp
    simp only [nmap_host_to_obj]
    rw [jGet_jset_ne (by decide), uptime_pass_preserve (by decide),
      hostscript_pass_preserve (by decide), ports_pass_preserve (by decide),
      hostnames_pass_none host.kids hyp]
    by_cases haddr :
        (List.foldl (fun arr n => if elemName? n = some "address" then arr ++ [addrEntry n] else arr)
          [] host.kids).isEmpty = true
    · rw [if_pos haddr, status_pass_preserve (by decide), starttime_base_ne (by decide)]
    · rw [if_neg haddr, jGet_jset_ne (by decide), status_pass_preserve (by decide),
        starttime_base_ne (by decide)]
  · intro n
    constructor
    · cases h1 : getProp n "addr" <;> cases h2 : getProp n "addrtype" <;>
        cases h3 : getProp n "vendor" <;>
        simp [addrEntry, propSet, h1, h2, h3, jset, Json.set]
    · cases h1 : getProp n "addr" <;> cases h2 : getProp n "addrtype" <;>
        cases h3 : getProp n "vendor" <;>
        simp [addrEntry, propSet, h1, h2, h3, jset, Json.set, Json.isObj]

/-- C9 counterexample: an `<address>` child carrying none of the
recognized attributes contributes `null` to `addresses`, not an object —
the claim that each address child contributes an object fails. -/
theorem address_entry_not_object :
    jGet (nmap_host_to_obj cexC9) "addresses" = some (.arr [Json.null]) ∧
    Json.isObj Json.null = false := by
  constructor
  · simp [cexC9, nmap_host_to_obj, XNode.kids, elemName?, getProp, propSet, jset, Json.set,
      insertSorted, strLt, charsLt, jGet, lookupKey, jEmpty, jAppendAt, jAtD, addrEntry,
      hnEntry, script_to_sc, portObj]
  · rfl

/-! ## C10: the `_tag` unwrap on a text-leaf record -/

/-- C10: in generic mode a record element that is a pure text leaf makes
the mapper produce a plain string, and the `merged["_tag"] = it.key()`
unwrap step applies object key assignment to that string —
`nlohmann::json` raises `type_error.305` and the uncaught exception
aborts the program: the run errors instead of emitting a record. -/
theorem tag_attach_aborts :
    run_main ⟨.generic, "item", .jsonl, 500⟩ [.elemStart c10node] stopNever = .error () := by
  simp [run_main, effective_record_tag, stream_loop, stopNever, process_tok, process_record,
    map_record, node_to_json, childJsons, mergeKids, addAttrs, childrenResult, mergeGroups,
    buildGroups, XNode.contentList, trimChars, isWs, jAtD, jGet, lookupKey, insertSorted,
    strLt, charsLt, Json.set, elemName?, c10node, tag_val_of, bind, Except.bind]

/-! ## Driver-loop lemmas -/

theorem stream_loop_no_stop (cfg : Config) (stop : Nat → Bool) :
    ∀ (toks : List Tok) (i polls : Nat) (st : LoopSt),
      (∀ j, j < i + toks.length → stop j = false) →
      stream_loop cfg stop toks i polls st
        = (run_toks cfg st toks).map
            (fun st' => (st', i + toks.length, polls + toks.length, false)) := by
  intro toks
  induction toks with
  | nil =>
    intro i polls st _
    simp [stream_loop, run_toks, Except.map]
  | cons t rest ih =>
    intro i polls st h
    have hi : stop i = false := h i (by simp only [List.length_cons]; omega)
    rw [stream_loop, hi]
    simp only [Bool.false_eq_true, if_false]
    cases hp : process_tok cfg st t with
    | error e =>
      simp only [run_toks, hp, bind, Except.bind, Except.map]
    | ok st1 =>
      simp only [run_toks, hp, bind, Except.bind]
      rw [ih (i + 1) (polls + 1) st1
        (fun j hj => h j (by simp only [List.length_cons] at hj ⊢; omega))]
      have h1 : i + 1 + rest.length = i + (t :: rest).length := by simp; omega
      have h2 : polls + 1 + rest.length = polls + (t :: rest).length := by simp; omega
      rw [h1, h2]

theorem stream_loop_stop_at (cfg : Config) (stop : Nat → Bool) (p : Nat)
    (hstop : ∀ j, stop j = decide (p ≤ j)) :
    ∀ (toks : List Tok) (i polls : Nat) (st : LoopSt),
      i ≤ p → p - i < toks.length →
      stream_loop cfg stop toks i polls st
        = (run_toks cfg st (toks.take (p - i))).map
            (fun st' => (st', p, polls + (p - i) + 1, true)) := by
  intro toks
  induction toks with
  | nil =>
    intro i polls st _ hlen
    simp at hlen
  | cons t rest ih =>
    intro i polls st hip hlen
    by_cases hi : i = p
    · subst hi
      have hs : stop i = true := by rw [hstop]; simp
      rw [stream_loop, hs]
      simp [run_toks, Except.map]
    · have hilt : i < p := lt_of_le_of_ne hip hi
      have hs : stop i = false := by rw [hstop]; simp; omega
      rw [stream_loop, hs]
      simp only [Bool.false_eq_true, if_false]
      have hpi : p - i = (p - (i + 1)) + 1 := by omega
      rw [hpi]
      simp only [List.take_succ_cons]
      cases hp : process_tok cfg st t with
      | error e =>
        simp only [run_toks, hp, bind, Except.bind, Except.map]
      | ok st1 =>
        simp only [run_toks, hp, bind, Except.bind]
        rw [ih (i + 1) (polls + 1) st1 (by omega)
          (by simp only [List.length_cons] at hlen ⊢; omega)]
        have h2 : polls + 1 + (p - (i + 1)) + 1 = polls + (p - (i + 1) + 1) + 1 := by omega
        rw [h2]

theorem run_toks_jsonl (cfg : Config) (hfmt : cfg.format = .jsonl) :
    ∀ (toks : List Tok) (rs : List (String × Json)) (st : LoopSt),
      record_jsons cfg toks = .ok rs →
      run_toks cfg st toks = .ok { st with out := st.out ++ rs.map (fun r => OutEvent.line r.2) } := by
  intro toks
  induction toks with
  | nil =>
    intro rs st h
    rw [record_jsons] at h
    injection h with h
    subst h
    simp [run_toks]
  | cons t rest ih =>
    intro rs st h
    cases t with
    | other =>
      rw [record_jsons] at h
      rw [run_toks, process_tok]
      simp only [bind, Except.bind]
      exact ih rs st h
    | elemStart node =>
      rw [record_jsons] at h
      by_cases hm : elemName? node = some cfg.record_tag
      · rw [if_pos hm] at h
        cases hj : map_record cfg node with
        | error e =>
          rw [hj] at h
          simp only [bind, Except.bind] at h
          exact Except.noConfusion h
        | ok j =>
          rw [hj] at h
          simp only [bind, Except.bind] at h
          cases htv : tag_val_of cfg j with
          | error e =>
            rw [htv] at h
            simp only [Except.bind] at h
            exact Except.noConfusion h
          | ok tv =>
            rw [htv] at h
            simp only [Except.bind] at h
            cases hrest : record_jsons cfg rest with
            | error e =>
              rw [hrest] at h
              simp only [Except.bind] at h
              exact Except.noConfusion h
            | ok rs' =>
              rw [hrest] at h
              simp only [Except.bind] at h
              injection h with h
              subst h
              rw [run_toks, process_tok, if_pos hm]
              simp only [process_record, hj, bind, Except.bind, htv, hfmt]
              rw [ih rs' _ hrest]
              simp
      · rw [if_neg hm] at h
        rw [run_toks, process_tok, if_neg hm]
        simp only [bind, Except.bind]
        exact ih rs st h

theorem run_toks_sqlite (cfg : Config) (hfmt : cfg.format = .sqlite) (hb : 1 ≤ cfg.batch) :
    ∀ (toks : List Tok) (rs : List (String × Json)) (st : LoopSt),
      record_jsons cfg toks = .ok rs → st.buf.length < cfg.batch →
      ∃ st', run_toks cfg st toks = .ok st' ∧
        st'.out = st.out ∧
        st'.buf.length < cfg.batch ∧
        st'.txns.flatten ++ st'.buf = st.txns.flatten ++ st.buf ++ rs ∧
        ∃ new, st'.txns = st.txns ++ new ∧ ∀ b ∈ new, b.length = cfg.batch := by
  intro toks
  induction toks with
  | nil =>
    intro rs st h hlt
    rw [record_jsons] at h
    injection h with h
    subst h
    exact ⟨st, rfl, rfl, hlt, by simp, [], by simp, by simp⟩
  | cons t rest ih =>
    intro rs st h hlt
    cases t with
    | other =>
      rw [record_jsons] at h
      rcases ih rs st h hlt with ⟨st', hrun, hout, hblt, hacc, new, hnew, hlen⟩
      refine ⟨st', ?_, hout, hblt, hacc, new, hnew, hlen⟩
      rw [run_toks, process_tok]
      simp only [bind, Except.bind]
      exact hrun
    | elemStart node =>
      rw [record_jsons] at h
      by_cases hm : elemName? node = some cfg.record_tag
      · rw [if_pos hm] at h
        cases hj : map_record cfg node with
        | error e =>
          rw [hj] at h
          simp only [bind, Except.bind] at h
          exact Except.noConfusion h
        | ok j =>
          rw [hj] at h
          simp only [bind, Except.bind] at h
          cases htv : tag_val_of cfg j with
          | error e =>
            rw [htv] at h
            simp only [Except.bind] at h
            exact Except.noConfusion h
          | ok tv =>
            rw [htv] at h
            simp only [Except.bind] at h
            cases hrest : record_jsons cfg rest with
            | error e =>
              rw [hrest] at h
              simp only [Except.bind] at h
              exact Except.noConfusion h
            | ok rs' =>
              rw [hrest] at h
              simp only [Except.bind] at h
              injection h with h
              subst h
              by_cases hflush : cfg.batch ≤ (st.buf ++ [(tv, j)]).length
              · have hblen : (st.buf ++ [(tv, j)]).length = cfg.batch := by
                  simp only [List.length_append, List.length_cons, List.length_nil] at hflush ⊢
                  omega
                rcases ih rs' ⟨st.out, [], sqlite_batch_insert st.txns (st.buf ++ [(tv, j)])⟩
                    hrest (by simpa using hb)
                  with ⟨st', hrun, hout, hblt, hacc, new, hnew, hlen⟩
                refine ⟨st', ?_, hout, hblt, ?_, (st.buf ++ [(tv, j)]) :: new, ?_, ?_⟩
                · rw [run_toks, process_tok, if_pos hm]
                  simp only [process_record, hj, bind, Except.bind, htv, hfmt]
                  rw [if_pos hflush]
                  exact hrun
                · rw [hacc]
                  simp [sqlite_batch_insert]
                · rw [hnew]
                  simp [sqlite_batch_insert]
                · intro b hbm
                  rcases List.mem_cons.mp hbm with hbe | hbe
                  · rw [hbe]; exact hblen
                  · exact hlen b hbe
              · have hblen : (st.buf ++ [(tv, j)]).length < cfg.batch := by
                  simp only [List.length_append, List.length_cons, List.length_nil] at hflush ⊢
                  omega
                rcases ih rs' ⟨st.out, st.buf ++ [(tv, j)], st.txns⟩ hrest hblen
                  with ⟨st', hrun, hout, hblt, hacc, new, hnew, hlen⟩
                refine ⟨st', ?_, hout, hblt, ?_, new, hnew, hlen⟩
                · rw [run_toks, process_tok, if_pos hm]
                  simp only [process_record, hj, bind, Except.bind, htv, hfmt]
                  rw [if_neg hflush]
                  exact hrun
                · rw [hacc]
                  simp
      · rw [if_neg hm] at h
        rcases ih rs st h hlt with ⟨st', hrun, hout, hblt, hacc, new, hnew, hlen⟩
        refine ⟨st', ?_, hout, hblt, hacc, new, hnew, hlen⟩
        rw [run_toks, process_tok, if_neg hm]
        simp only [bind, Except.bind]
        exact hrun

theorem flatten_length_of_batches {α : Type} {T : List (List α)} {B : Nat}
    (h : ∀ b ∈ T, b.length = B) : T.flatten.length = B * T.length := by
  induction T with
  | nil => simp
  | cons b rest ih =>
    simp only [List.flatten_cons, List.length_append, List.length_cons]
    rw [h b (by simp), ih (fun b' hb' => h b' (List.mem_cons_of_mem _ hb'))]
    ring

/-! ## C3: cancellation boundary -/

/-- C3: with a write-once cancellation flag first observed set at poll
`p` (after the token of record `k` and before the token of record `k+1`,
so that `toks.take p` holds exactly the first `k` records `rs`), the run
emits exactly those `k` records, each as one complete line, consumes
exactly `p` tokens, and the flag is polled exactly once per loop
iteration — `p` iteration polls plus the final exiting poll, `p + 1` in
all; no partial record `k+1` is emitted. -/
theorem cancellation_boundary (cfg : Config) (toks : List Tok) (stop : Nat → Bool)
    (p : Nat) (rs : List (String × Json))
    (hfmt : cfg.format = .jsonl) (htag : cfg.record_tag ≠ "")
    (hstop : ∀ j, stop j = decide (p ≤ j)) (hp : p < toks.length)
    (hrs : record_jsons cfg (toks.take p) = .ok rs) :
    run_main cfg toks stop
      = .ok { exit := 0, out := rs.map (fun r => OutEvent.line r.2), txns := [],
              leftover := [], finishFlushed := false, stopped := true,
              consumed := p, polls := p + 1 } := by
  have hrt : effective_record_tag cfg = cfg.record_tag := by
    simp [effective_record_tag, htag]
  have hcfg : ({ cfg with record_tag := cfg.record_tag } : Config) = cfg := rfl
  rw [run_main, hrt, hcfg, if_neg htag]
  have hout0 : (if cfg.format = Format.mysqlSql then [OutEvent.preamble] else []) = [] := by
    rw [hfmt]
    rfl
  rw [hout0]
  have hloop := stream_loop_stop_at cfg stop p hstop toks 0 0 ⟨[], [], []⟩
    (Nat.zero_le p) (by simpa using hp)
  simp only [Nat.sub_zero] at hloop
  rw [run_toks_jsonl cfg hfmt _ rs _ hrs] at hloop
  simp only [Except.map] at hloop
  rw [hloop]
  simp only [bind, Except.bind]
  have hstopp : stop p = true := by rw [hstop]; simp
  rw [hstopp]
  simp [hfmt]

/-! ## C4: the batched transactional writer -/

/-- C4: for the SQLite sink, each dispatched record appends exactly one
row to the buffer and triggers a flush exactly when the buffer reaches
the batch size (so after every step the buffer holds fewer than `batch`
rows and every loop-flushed transaction has exactly `batch` rows — the
buffer never exceeds the batch size); in particular, with batch size 3
and 7 records and no failure, exactly 3 transactions are committed, of
sizes 3, 3 and 1 (the last by the final flush), holding all 7 rows in
their original order. -/
theorem batched_writer :
    (∀ (cfg : Config) (toks : List Tok) (rs : List (String × Json)) (st st' : LoopSt),
      cfg.format = .sqlite → 1 ≤ cfg.batch → record_jsons cfg toks = .ok rs →
      st.buf.length < cfg.batch → run_toks cfg st toks = .ok st' →
      st'.buf.length < cfg.batch ∧
      ∃ new, st'.txns = st.txns ++ new ∧ ∀ b ∈ new, b.length = cfg.batch) ∧
    (∀ (cfg : Config) (st : LoopSt) (node : XNode) (st' : LoopSt),
      cfg.format = .sqlite → process_record cfg st node = .ok st' →
      ∃ row, st' = (if cfg.batch ≤ (st.buf ++ [row]).length
        then ⟨st.out, [], sqlite_batch_insert st.txns (st.buf ++ [row])⟩
        else ⟨st.out, st.buf ++ [row], st.txns⟩)) ∧
    run_main ⟨.generic, "item", .sqlite, 3⟩ toks7 stopNever
      = .ok { exit := 0, out := [],
              txns := [[recRow "1", recRow "2", recRow "3"],
                       [recRow "4", recRow "5", recRow "6"],
                       [recRow "7"]],
              leftover := [], finishFlushed := true, stopped := false,
              consumed := 7, polls := 7 } := by
  refine ⟨?_, ?_, ?_⟩
  · intro cfg toks rs st st' hfmt hb hrs hlt hrun
    rcases run_toks_sqlite cfg hfmt hb toks rs st hrs hlt
      with ⟨st'', hrun', _, hblt, _, new, hnew, hlen⟩
    rw [hrun] at hrun'
    injection hrun' with he
    subst he
    exact ⟨hblt, new, hnew, hlen⟩
  · intro cfg st node st' hfmt hk
    rw [process_record] at hk
    cases hj : map_record cfg node with
    | error e =>
      rw [hj] at hk
      simp only [bind, Except.bind] at hk
      exact Except.noConfusion hk
    | ok j =>
      rw [hj] at hk
      simp only [bind, Except.bind] at hk
      cases htv : tag_val_of cfg j with
      | error e =>
        rw [htv] at hk
        simp only [Except.bind] at hk
        exact Except.noConfusion hk
      | ok tv =>
        rw [htv] at hk
        simp only [Except.bind, hfmt] at hk
        refine ⟨(tv, j), ?_⟩
        by_cases hflush : cfg.batch ≤ (st.buf ++ [(tv, j)]).length
        · rw [if_pos hflush] at hk ⊢
          injection hk with hk
          rw [← hk]
        · rw [if_neg hflush] at hk ⊢
          injection hk with hk
          rw [← hk]
  · simp [run_main, effective_record_tag, stream_loop, stopNever, process_tok, process_record,
      map_record, tag_val_of, sqlite_batch_insert, node_to_json, childJsons, mergeKids,
      addAttrs, childrenResult, mergeGroups, buildGroups, XNode.contentList, trimChars, isWs,
      jAtD, jGet, lookupKey, insertSorted, strLt, charsLt, Json.set, elemName?, toks7, recNode,
      recRow, bind, Except.bind]

/-! ## C5: the final flush -/

/-- C5 counterexample: a run over a single non-record token ends without
any cancellation (the flag is never set, `stopped = false`), yet no
final flush transaction is performed (`finishFlushed = false`, no
transactions) because the buffer is empty — the final flush is not
performed "if and only if the loop ended without cancellation". -/
theorem final_flush_not_iff :
    run_main ⟨.generic, "item", .sqlite, 3⟩ [Tok.other] stopNever
      = .ok { exit := 0, out := [], txns := [], leftover := [], finishFlushed := false,
              stopped := false, consumed := 1, polls := 1 } := by
  simp [run_main, effective_record_tag, stream_loop, stopNever, process_tok,
    sqlite_batch_insert, bind, Except.bind]

/-- C5 (amended): for a SQLite run under a write-once cancellation flag
first set at poll `p`, the final flush runs if and only if the flag is
still unset at the post-loop check (`toks.length < p`) AND the buffer is
non-empty (`rs.length % batch ≠ 0`); without cancellation every
dispatched row is committed, and under cancellation the final flush is
skipped, every committed transaction is a full batch, and the
`rs.length % batch` buffered rows below the batch threshold are dropped
(they remain only in `leftover`, never in a transaction). -/
theorem final_flush_conditions (cfg : Config) (toks : List Tok) (stop : Nat → Bool)
    (p : Nat) (rs : List (String × Json))
    (hfmt : cfg.format = .sqlite) (hb : 1 ≤ cfg.batch) (htag : cfg.record_tag ≠ "")
    (hstop : ∀ j, stop j = decide (p ≤ j))
    (hrs : record_jsons cfg (toks.take p) = .ok rs) :
    ∃ res, run_main cfg toks stop = .ok res ∧
      (res.finishFlushed = true ↔ (toks.length < p ∧ rs.length % cfg.batch ≠ 0)) ∧
      (toks.length < p → res.txns.flatten = rs ∧ res.leftover = []) ∧
      (p ≤ toks.length →
        res.finishFlushed = false ∧ res.txns.flatten ++ res.leftover = rs ∧
        (∀ b ∈ res.txns, b.length = cfg.batch) ∧
        res.leftover.length = rs.length % cfg.batch) := by
  have hrt : effective_record_tag cfg = cfg.record_tag := by
    simp [effective_record_tag, htag]
  have hcfg : ({ cfg with record_tag := cfg.record_tag } : Config) = cfg := rfl
  have hout0 : (if cfg.format = Format.mysqlSql then [OutEvent.preamble] else []) = [] := by
    rw [hfmt]; rfl
  rcases run_toks_sqlite cfg hfmt hb (toks.take p) rs ⟨[], [], []⟩ hrs (by simpa using hb)
    with ⟨st', hrun, hout, hblt, hacc, new, hnew, hlen⟩
  simp only [List.flatten_nil, List.nil_append, List.append_nil] at hacc
  simp only [List.nil_append] at hnew
  have hlenall : ∀ b ∈ st'.txns, b.length = cfg.batch := by
    rw [hnew]; exact hlen
  have hmod : st'.buf.length = rs.length % cfg.batch := by
    have hfl : st'.txns.flatten.length = cfg.batch * st'.txns.length :=
      flatten_length_of_batches hlenall
    have hrl : rs.length = cfg.batch * st'.txns.length + st'.buf.length := by
      rw [← hacc, List.length_append, hfl]
    rw [hrl, Nat.mul_add_mod]
    exact (Nat.mod_eq_of_lt hblt).symm
  rw [run_main, hrt, hcfg, if_neg htag, hout0]
  rcases Nat.lt_trichotomy p toks.length with hpl | hpl | hpl
  · -- cancelled strictly inside the stream: flag-exit at poll p
    rw [stream_loop_stop_at cfg stop p hstop toks 0 0 ⟨[], [], []⟩ (Nat.zero_le p)
      (by simpa using hpl)]
    simp only [Nat.sub_zero]
    rw [hrun]
    simp only [Except.map, bind, Except.bind]
    have hstopp : stop p = true := by rw [hstop]; simp
    rw [hstopp]
    simp only [Bool.true_eq_false, false_and, if_false]
    refine ⟨_, rfl, ?_, ?_, ?_⟩
    · simp only []
      constructor
      · intro h; exact absurd h (by simp)
      · intro h; omega
    · intro h; omega
    · intro _
      exact ⟨rfl, hacc, hlenall, hmod⟩
  · -- flag set exactly at the poll after the last token: exhaustion, then
    -- the post-loop flag read is already true and the flush is skipped
    rw [stream_loop_no_stop cfg stop toks 0 0 ⟨[], [], []⟩
      (by intro j hj; rw [hstop]; simp only [Nat.zero_add] at hj; simp; omega)]
    have htake : toks.take p = toks := by
      rw [hpl]; exact List.take_length toks
    rw [htake] at hrun
    rw [hrun]
    simp only [Except.map, bind, Except.bind, Nat.zero_add]
    have hstopp : stop toks.length = true := by rw [hstop]; simp; omega
    rw [hstopp]
    simp only [Bool.true_eq_false, false_and, if_false]
    refine ⟨_, rfl, ?_, ?_, ?_⟩
    · simp only []
      constructor
      · intro h; exact absurd h (by simp)
      · intro h; omega
    · intro h; omega
    · intro _
      exact ⟨rfl, hacc, hlenall, hmod⟩
  · -- the flag is never set during or after the loop
    rw [stream_loop_no_stop cfg stop toks 0 0 ⟨[], [], []⟩
      (by intro j hj; rw [hstop]; simp only [Nat.zero_add] at hj; simp; omega)]
    have htake : toks.take p = toks := List.take_of_length_le (le_of_lt hpl)
    rw [htake] at hrun
    rw [hrun]
    simp only [Except.map, bind, Except.bind, Nat.zero_add]
    have hstopp : stop toks.length = false := by rw [hstop]; simp; omega
    rw [hstopp]
    cases hbuf : st'.buf with
    | nil =>
      rw [if_neg (show ¬(false = false ∧ cfg.format = Format.sqlite ∧
        (([] : List (String × Json)).isEmpty = false)) from by simp)]
      have hflat : st'.txns.flatten = rs := by
        rw [← hacc, hbuf, List.append_nil]
      have hmod0 : rs.length % cfg.batch = 0 := by
        rw [← hmod, hbuf]; rfl
      refine ⟨_, rfl, ?_, ?_, ?_⟩
      · simp only []
        constructor
        · intro h; exact absurd h (by simp)
        · intro h; exact absurd hmod0 h.2
      · intro _; exact ⟨hflat, hbuf⟩
      · intro h; omega
    | cons b bs =>
      rw [if_pos (show false = false ∧ cfg.format = Format.sqlite ∧
        ((b :: bs : List (String × Json)).isEmpty = false) from ⟨rfl, hfmt, rfl⟩)]
      have hne : rs.length % cfg.batch ≠ 0 := by
        rw [← hmod, hbuf]
        simp
      refine ⟨_, rfl, ?_, ?_, ?_⟩
      · simp only []
        constructor
        · intro _; exact ⟨hpl, hne⟩
        · intro _; exact trivial
      · intro _
        constructor
        · show (sqlite_batch_insert st'.txns (b :: bs)).flatten = rs
          rw [sqlite_batch_insert, ← hacc, hbuf]
          simp
        · rfl
      · intro h; omega

/-! ## C6: the empty record-tag configuration check -/

/-- C6 counterexample: in generic mode with `--format mysql-sql` and an
empty record tag, the run refuses with configuration error 9 before the
loop — but the SQL schema preamble has already been written to the
output (`out = [preamble] ≠ []`), so the error is not reported "before
any output is produced". -/
theorem config_error_after_preamble :
    run_main ⟨.generic, "", .mysqlSql, 500⟩ [] stopNever
      = .ok { exit := 9, out := [.preamble], txns := [], leftover := [],
              finishFlushed := false, stopped := false, consumed := 0, polls := 0 } ∧
    ([OutEvent.preamble] : List OutEvent) ≠ [] := by
  constructor
  · rfl
  · simp

/-- C6 (amended): in generic mode an empty record tag makes the program
exit with configuration error 9 before the extraction loop runs — no
token is consumed, the flag is never polled, no transaction is committed
and no record is emitted — but after the MySQL preamble has already been
written when that format is selected; in nmap mode an empty record tag
does not refuse at all: it is silently defaulted to `host`. -/
theorem config_error_check (cfg : Config) (toks : List Tok) (stop : Nat → Bool) :
    (cfg.record_tag = "" → cfg.mode = .generic →
      run_main cfg toks stop
        = .ok { exit := 9, out := (if cfg.format = Format.mysqlSql then [.preamble] else []),
                txns := [], leftover := [], finishFlushed := false, stopped := false,
                consumed := 0, polls := 0 }) ∧
    (cfg.record_tag = "" → cfg.mode = .nmap → effective_record_tag cfg = "host") := by
  constructor
  · intro htag hmode
    have hrt : effective_record_tag cfg = "" := by
      simp [effective_record_tag, htag, hmode]
    rw [run_main, hrt, if_pos rfl]
  · intro htag hmode
    simp [effective_record_tag, htag, hmode]

/-! ## Witnesses -/

theorem single_vs_array_witness :
    jGet (children_to_json (.elem "x" []
        [.elem "p" [] [.text "1"], .elem "p" [] [.text "2"]])) "p"
      = some (.arr [.str "1", .str "2"]) := by
  have hv : childVals "p" [XNode.elem "p" [] [.text "1"], XNode.elem "p" [] [.text "2"]]
      = [.str "1", .str "2"] := by
    simp [childVals, childrenNamed, elemName?, node_to_json, childJsons, mergeKids, addAttrs,
      childrenResult, mergeGroups, buildGroups, XNode.contentList, trimChars, isWs, jAtD,
      jGet, lookupKey, insertSorted, strLt, charsLt]
  have h := (single_vs_array "x" [] [.elem "p" [] [.text "1"], .elem "p" [] [.text "2"]] "p"
    (by decide)).2.2 (by rw [hv]; decide)
  rw [hv] at h
  exact h

theorem text_attachment_witness :
    jGet (jAtD (node_to_json (.elem "a" [("x", "1")] [.text " hi "])) "a") "#text"
      = some (.str "hi") := by
  have h := (text_attachment "a" [("x", "1")] [.text " hi "] (by decide)).2 (Or.inl (by decide))
  have ht : trimChars (XNode.contentList [XNode.text " hi "]) = "hi" := by
    simp [XNode.contentList, trimChars, isWs]
  rw [ht, if_neg (show ¬("hi" : String) = "" from by decide)] at h
  exact h

theorem cancellation_boundary_witness :
    run_main ⟨.generic, "item", .jsonl, 500⟩
        [.elemStart (recNode "1"), .other, .elemStart (recNode "2")] (stopFrom 2)
      = .ok { exit := 0, out := [OutEvent.line (recRow "1").2], txns := [],
              leftover := [], finishFlushed := false, stopped := true,
              consumed := 2, polls := 3 } := by
  have h := cancellation_boundary ⟨.generic, "item", .jsonl, 500⟩
    [.elemStart (recNode "1"), .other, .elemStart (recNode "2")] (stopFrom 2) 2 [recRow "1"]
    rfl (by decide) (fun j => rfl) (by decide)
    (by simp [record_jsons, map_record, tag_val_of, node_to_json, childJsons, mergeKids,
      addAttrs, childrenResult, mergeGroups, buildGroups, XNode.contentList, trimChars, isWs,
      jAtD, jGet, lookupKey, insertSorted, strLt, charsLt, Json.set, elemName?, recNode,
      recRow, bind, Except.bind])
  exact h

theorem batched_writer_witness :
    ([recRow "1"] : List (String × Json)).length < 2 ∧
    ∃ new, ([] : List (List (String × Json))) = [] ++ new ∧ ∀ b ∈ new, b.length = 2 := by
  exact batched_writer.1 ⟨.generic, "item", .sqlite, 2⟩ [.elemStart (recNode "1")]
    [recRow "1"] ⟨[], [], []⟩ ⟨[], [recRow "1"], []⟩ rfl (by decide)
    (by simp [record_jsons, map_record, tag_val_of, node_to_json, childJsons, mergeKids,
      addAttrs, childrenResult, mergeGroups, buildGroups, XNode.contentList, trimChars, isWs,
      jAtD, jGet, lookupKey, insertSorted, strLt, charsLt, Json.set, elemName?, recNode,
      recRow, bind, Except.bind])
    (by decide)
    (by simp [run_toks, process_tok, process_record, map_record, tag_val_of, node_to_json,
      childJsons, mergeKids, addAttrs, childrenResult, mergeGroups, buildGroups,
      XNode.contentList, trimChars, isWs, jAtD, jGet, lookupKey, insertSorted, strLt,
      charsLt, Json.set, elemName?, recNode, recRow, bind, Except.bind])

theorem final_flush_conditions_witness :
    ∃ res, run_main ⟨.generic, "item", .sqlite, 3⟩ [.elemStart (recNode "1")] (stopFrom 0)
        = .ok res ∧ res.finishFlushed = false ∧ res.txns.flatten ++ res.leftover = [] := by
  obtain ⟨res, hrun, hiff, hnc, hc⟩ := final_flush_conditions ⟨.generic, "item", .sqlite, 3⟩
    [.elemStart (recNode "1")] (stopFrom 0) 0 [] rfl (by decide) (by decide)
    (fun j => rfl) rfl
  rcases hc (by decide) with ⟨hff, hacc2, _, _⟩
  exact ⟨res, hrun, hff, hacc2⟩

theorem config_error_check_witness :
    run_main ⟨.generic, "", .mysqlSql, 500⟩ [Tok.other] stopNever
      = .ok { exit := 9, out := [.preamble], txns := [], leftover := [],
              finishFlushed := false, stopped := false, consumed := 0, polls := 0 } := by
  have h := (config_error_check ⟨.generic, "", .mysqlSql, 500⟩ [Tok.other] stopNever).1 rfl rfl
  simpa using h

theorem host_addresses_witness :
    jGet (nmap_host_to_obj witC9) "addresses"
      = some (.arr [Json.obj [("addr", .str "10.0.0.1"), ("addrtype", .str "ipv4")],
                    Json.obj [("addr", .str "aa:bb:cc:dd:ee:ff"), ("addrtype", .str "mac")]]) ∧
    jGet (nmap_host_to_obj witC9) "hostnames" = none := by
  have h1 := (host_addresses witC9).1
  have h2 := (host_addresses witC9).2.1 (by decide)
  constructor
  · rw [h1]
    simp [witC9, XNode.kids, elemName?, addrEntry, propSet, getProp, jset, Json.set,
      insertSorted, strLt, charsLt]
  · exact h2
